import Mathlib

/-!
# Verification of the es6-transpiler scope/binding core

This development shallowly embeds the scope/binding resolver, the fresh-name
and shared-helper allocator, the closure-in-loop capture checker, the class
prototype-wiring synthesis and the parameter-default lowering of the
transpiler, and proves (or refutes) the specified properties about them.

Machine integers of the source are modelled as `Nat`; JavaScript objects
reachable through parent pointers are modelled as inductive parent chains;
fallible operations return `Option`/`Except`.
-/

namespace ES6

/-! ## Decimal printing facts

The fresh-name allocator produces names of the form `base ++ "$" ++ cnt`
with `cnt` printed in decimal (`Nat.repr`).  To know that the allocator can
always escape a finite registry we need that decimal printing is injective,
which we prove here by exhibiting a decoder. -/

/-- Decimal value of a digit character; inverse of `Nat.digitChar` below 10. -/
def digitVal (c : Char) : Nat := c.toNat - 48

/-- Decode a list of decimal digit characters, most significant digit first. -/
def decodeDigits (l : List Char) : Nat :=
  l.foldl (fun a c => a * 10 + digitVal c) 0

theorem toDigitsCore_fuel (n : Nat) : ∀ (f₁ f₂ : Nat) (l : List Char),
    n ≤ f₁ → n ≤ f₂ →
    Nat.toDigitsCore 10 (f₁ + 1) n l = Nat.toDigitsCore 10 (f₂ + 1) n l := by
  induction n using Nat.strong_induction_on with
  | _ n ih =>
    intro f₁ f₂ l h₁ h₂
    simp only [Nat.toDigitsCore]
    by_cases hq : n / 10 = 0
    · simp [hq]
    · simp only [hq, if_false]
      have hn10 : 10 ≤ n := by omega
      have hqn : n / 10 < n := Nat.div_lt_self (by omega) (by omega)
      obtain ⟨g₁, rfl⟩ : ∃ g₁, f₁ = g₁ + 1 := ⟨f₁ - 1, by omega⟩
      obtain ⟨g₂, rfl⟩ : ∃ g₂, f₂ = g₂ + 1 := ⟨f₂ - 1, by omega⟩
      exact ih (n / 10) hqn g₁ g₂ _ (by omega) (by omega)

theorem toDigitsCore_norm (n f : Nat) (l : List Char) (h1 : n < f) :
    Nat.toDigitsCore 10 f n l = Nat.toDigitsCore 10 (n + 1) n l := by
  obtain ⟨g, rfl⟩ : ∃ g, f = g + 1 := ⟨f - 1, by omega⟩
  exact toDigitsCore_fuel n g n l (by omega) (Nat.le_refl n)

theorem toDigitsCore_append (n : Nat) : ∀ (l : List Char),
    Nat.toDigitsCore 10 (n + 1) n l = Nat.toDigitsCore 10 (n + 1) n [] ++ l := by
  induction n using Nat.strong_induction_on with
  | _ n ih =>
    intro l
    simp only [Nat.toDigitsCore]
    by_cases hq : n / 10 = 0
    · simp [hq]
    · simp only [hq, if_false]
      have hn10 : 10 ≤ n := by omega
      have hqn : n / 10 < n := Nat.div_lt_self (by omega) (by omega)
      rw [toDigitsCore_norm (n / 10) n _ hqn,
          toDigitsCore_norm (n / 10) n _ hqn,
          ih (n / 10) hqn (Nat.digitChar (n % 10) :: l),
          ih (n / 10) hqn [Nat.digitChar (n % 10)],
          List.append_assoc, List.singleton_append]

theorem decodeDigits_toDigits (n : Nat) : decodeDigits (Nat.toDigits 10 n) = n := by
  induction n using Nat.strong_induction_on with
  | _ n ih =>
    rw [Nat.toDigits]
    simp only [Nat.toDigitsCore]
    by_cases hq : n / 10 = 0
    · have hn : n < 10 := by omega
      have hmod : n % 10 = n := Nat.mod_eq_of_lt hn
      simp only [hq, if_true, hmod]
      show 0 * 10 + digitVal (Nat.digitChar n) = n
      have : digitVal (Nat.digitChar n) = n := by
        interval_cases n <;> rfl
      omega
    · simp only [hq, if_false]
      have hqn : n / 10 < n := Nat.div_lt_self (by omega) (by omega)
      rw [toDigitsCore_norm (n / 10) n _ hqn,
          toDigitsCore_append (n / 10)]
      show List.foldl (fun a c => a * 10 + digitVal c) 0
          (Nat.toDigitsCore 10 (n / 10 + 1) (n / 10) [] ++ [Nat.digitChar (n % 10)]) = n
      rw [List.foldl_append]
      have hdec : List.foldl (fun a c => a * 10 + digitVal c) 0
          (Nat.toDigitsCore 10 (n / 10 + 1) (n / 10) []) = n / 10 := ih (n / 10) hqn
      rw [hdec]
      have hr10 : n % 10 < 10 := Nat.mod_lt _ (by omega)
      have hdv : digitVal (Nat.digitChar (n % 10)) = n % 10 := by
        generalize hr : n % 10 = r at hr10
        interval_cases r <;> rfl
      show n / 10 * 10 + digitVal (Nat.digitChar (n % 10)) = n
      omega

theorem string_data_append (a b : String) : (a ++ b).data = a.data ++ b.data := rfl

theorem natRepr_injective : Function.Injective Nat.repr := by
  intro m n h
  have hd : Nat.toDigits 10 m = Nat.toDigits 10 n := by
    have hdata := congrArg String.data h
    simpa [Nat.repr, List.asString] using hdata
  have := congrArg decodeDigits hd
  simpa [decodeDigits_toDigits] using this

/-! ## The fresh-name allocator (`core.unique`)

Source: `unique(name, newVariable, additionalFilter)` tries the candidates
`name + "$" + cnt` for `cnt = 0, 1, 2, …` until one is absent from
`allIdentifiers` (and from the optional additional filter), reserving the
winner in the registry when `newVariable` is set. -/

/-- The candidate `name + "$" + cnt` that the loop body of `unique` builds. -/
def genName (name : String) (cnt : Nat) : String := name ++ "$" ++ Nat.repr cnt

theorem string_ext (a b : String) (h : a.data = b.data) : a = b := String.ext h

theorem genName_injective (name : String) : Function.Injective (genName name) := by
  intro m n h
  apply natRepr_injective
  have hd := congrArg String.data h
  simp only [genName, string_data_append, List.append_assoc,
    List.singleton_append] at hd
  have h1 := List.append_cancel_left hd
  have h2 : (Nat.repr m).data = (Nat.repr n).data := by
    simpa using h1
  exact string_ext _ _ h2

theorem genName_ne_name (name : String) (cnt : Nat) : genName name cnt ≠ name := by
  intro h
  have hl : (genName name cnt).data.length = name.data.length :=
    congrArg (fun s : String => s.data.length) h
  have hone : ("$" : String).data.length = 1 := rfl
  simp only [genName, string_data_append, List.length_append, hone] at hl
  omega

/-- No registry can contain every candidate suffix: some `cnt` below
`taken.length + 1` is free. -/
theorem exists_fresh (taken : List String) (name : String) :
    ∃ cnt ≤ taken.length, genName name cnt ∉ taken := by
  by_contra hcon
  push_neg at hcon
  have hsub : ((List.range (taken.length + 1)).map (genName name)).toFinset ⊆
      taken.toFinset := by
    intro x hx
    simp only [List.mem_toFinset, List.mem_map, List.mem_range] at hx ⊢
    obtain ⟨c, hc, rfl⟩ := hx
    exact hcon c (by omega)
  have hcard := Finset.card_le_card hsub
  have hnodup : ((List.range (taken.length + 1)).map (genName name)).Nodup :=
    (List.nodup_range _).map (genName_injective name)
  rw [List.toFinset_card_of_nodup hnodup, List.length_map, List.length_range] at hcard
  have := taken.toFinset_card_le
  omega

/-- The loop guard of `unique`: the candidate is absent from the registry and
from the optional additional filter. -/
def isFreeName (ids : List String) (filt : Option (List String)) (s : String) : Bool :=
  !(decide (s ∈ ids)) && (match filt with
    | none => true
    | some f => !(decide (s ∈ f)))

/-- The unbounded `for (cnt = 0;;cnt++)` search of `unique`, given explicit
fuel.  `uniqueSearch_spec` shows that with fuel at least `uniqueBound` the
search returns the least free suffix, so the fuel is only a device to keep
the definition structural. -/
def uniqueSearch (ids : List String) (filt : Option (List String)) (name : String) :
    Nat → Nat → Nat
  | 0, cnt => cnt
  | fuel + 1, cnt =>
    if isFreeName ids filt (genName name cnt) then cnt
    else uniqueSearch ids filt name fuel (cnt + 1)

/-- Enough fuel for `uniqueSearch` to find a free candidate (`exists_fresh`). -/
def uniqueBound (ids : List String) (filt : Option (List String)) : Nat :=
  ids.length + (match filt with | none => 0 | some f => f.length) + 1

/-- `core.unique(name, newVariable, additionalFilter)`.  The result is the
generated name together with the updated registry; `none` models the entry
assertion `assert(newVariable || this.allIdentifiers.has(name))` failing. -/
def unique (ids : List String) (name : String) (newVariable : Bool)
    (filt : Option (List String)) : Option (String × List String) :=
  if newVariable || decide (name ∈ ids) then
    let cnt := uniqueSearch ids filt name (uniqueBound ids filt) 0
    let g := genName name cnt
    some (g, if newVariable then g :: ids else ids)
  else none

theorem uniqueSearch_spec (ids : List String) (filt : Option (List String))
    (name : String) : ∀ (fuel cnt : Nat),
    (∃ k < fuel, isFreeName ids filt (genName name (cnt + k)) = true) →
    isFreeName ids filt (genName name (uniqueSearch ids filt name fuel cnt)) = true ∧
    cnt ≤ uniqueSearch ids filt name fuel cnt ∧
    ∀ m, cnt ≤ m → m < uniqueSearch ids filt name fuel cnt →
      isFreeName ids filt (genName name m) = false := by
  intro fuel
  induction fuel with
  | zero =>
    intro cnt hex
    obtain ⟨k, hk, _⟩ := hex
    omega
  | succ fuel ih =>
    intro cnt hex
    by_cases hfree : isFreeName ids filt (genName name cnt) = true
    · have hres : uniqueSearch ids filt name (fuel + 1) cnt = cnt := by
        simp [uniqueSearch, hfree]
      rw [hres]
      exact ⟨hfree, Nat.le_refl _, fun m h1 h2 => by omega⟩
    · have hres : uniqueSearch ids filt name (fuel + 1) cnt =
          uniqueSearch ids filt name fuel (cnt + 1) := by
        simp [uniqueSearch, hfree]
      have hex' : ∃ k < fuel, isFreeName ids filt (genName name (cnt + 1 + k)) = true := by
        obtain ⟨k, hk, hfr⟩ := hex
        match k, hk, hfr with
        | 0, _, hfr => exact absurd hfr hfree
        | k + 1, hk, hfr =>
          exact ⟨k, by omega, by rw [show cnt + 1 + k = cnt + (k + 1) by omega]; exact hfr⟩
      obtain ⟨h1, h2, h3⟩ := ih (cnt + 1) hex'
      rw [hres]
      refine ⟨h1, by omega, fun m hm1 hm2 => ?_⟩
      by_cases hmc : m = cnt
      · subst hmc
        simpa using hfree
      · exact h3 m (by omega) hm2

theorem exists_free_lt_bound (ids : List String) (filt : Option (List String))
    (name : String) :
    ∃ k < uniqueBound ids filt, isFreeName ids filt (genName name k) = true := by
  obtain ⟨c, hc, hfree⟩ := exists_fresh (ids ++ (filt.getD [])) name
  refine ⟨c, ?_, ?_⟩
  · cases filt <;> simp only [uniqueBound, Option.getD] at hc ⊢ <;>
      simp [List.length_append] at hc ⊢ <;> omega
  · cases filt with
    | none =>
      simp only [isFreeName, Bool.and_eq_true, Bool.not_eq_true']
      simp only [List.append_nil, Option.getD] at hfree
      simp [hfree]
    | some f =>
      simp only [isFreeName, Bool.and_eq_true, Bool.not_eq_true']
      simp only [Option.getD, List.mem_append] at hfree
      push_neg at hfree
      simp [hfree.1, hfree.2]

/-- **C10.** The name returned by a successful `unique` call is
`name ++ "$" ++ n` for the least `n` whose candidate is absent from the
registry and from the optional additional filter, and it is never the bare
`name` itself, even when that name is unused in the unit. -/
theorem unique_least_suffix (ids : List String) (name : String) (newVariable : Bool)
    (filt : Option (List String)) (g : String) (ids' : List String)
    (h : unique ids name newVariable filt = some (g, ids')) :
    ∃ n, g = genName name n ∧
      isFreeName ids filt (genName name n) = true ∧
      (∀ m < n, isFreeName ids filt (genName name m) = false) ∧
      g ≠ name := by
  unfold unique at h
  by_cases hcond : (newVariable || decide (name ∈ ids)) = true
  · simp only [hcond, if_true, Option.some.injEq, Prod.mk.injEq] at h
    obtain ⟨hg, _⟩ := h
    refine ⟨uniqueSearch ids filt name (uniqueBound ids filt) 0, hg.symm, ?_, ?_, ?_⟩
    · obtain ⟨hfree, _, _⟩ := uniqueSearch_spec ids filt name (uniqueBound ids filt) 0
        (by
          obtain ⟨k, hk, hfr⟩ := exists_free_lt_bound ids filt name
          exact ⟨k, hk, by simpa using hfr⟩)
      exact hfree
    · intro m hm
      obtain ⟨_, _, hmin⟩ := uniqueSearch_spec ids filt name (uniqueBound ids filt) 0
        (by
          obtain ⟨k, hk, hfr⟩ := exists_free_lt_bound ids filt name
          exact ⟨k, hk, by simpa using hfr⟩)
      exact hmin m (Nat.zero_le m) hm
    · rw [← hg]
      exact genName_ne_name name _
  · simp only [Bool.not_eq_true] at hcond
    rw [hcond] at h
    simp at h

/-- Closed instance: `unique` on an empty registry returns `x$0`, never `x`. -/
theorem unique_least_suffix_witness :
    ∃ n, "x$0" = genName "x" n ∧
      isFreeName [] none (genName "x" n) = true ∧
      (∀ m < n, isFreeName [] none (genName "x" m) = false) ∧
      ("x$0" : String) ≠ "x" :=
  unique_least_suffix [] "x" true none "x$0" ["x$0"] (by decide)

/-- With the declaring flag the entry assertion of `unique` always passes, and
the winning candidate is reserved in the registry. -/
theorem unique_declaring_eq (ids : List String) (name : String)
    (filt : Option (List String)) :
    unique ids name true filt =
      some (genName name (uniqueSearch ids filt name (uniqueBound ids filt) 0),
        genName name (uniqueSearch ids filt name (uniqueBound ids filt) 0) :: ids) := rfl

theorem isFreeName_not_mem (ids : List String) (filt : Option (List String))
    (s : String) (h : isFreeName ids filt s = true) : s ∉ ids := by
  intro hmem
  simp [isFreeName, hmem] at h

/-- The winning suffix of a declaring mint denotes a name free in the
starting registry. -/
theorem mint_fresh (ids : List String) (name : String) (filt : Option (List String)) :
    genName name (uniqueSearch ids filt name (uniqueBound ids filt) 0) ∉ ids := by
  obtain ⟨hfree, _, _⟩ := uniqueSearch_spec ids filt name (uniqueBound ids filt) 0
    (by
      obtain ⟨k, hk, hfr⟩ := exists_free_lt_bound ids filt name
      exact ⟨k, hk, by simpa using hfr⟩)
  exact isFreeName_not_mem ids filt _ hfree

/-- A sequence of declaring mint requests (base name, optional additional
filter) processed left to right through `unique`, threading the registry —
the way the passes of one compilation unit mint their fresh names. -/
def mintAll : List (String × Option (List String)) → List String →
    List String × List String
  | [], ids => ([], ids)
  | (name, filt) :: rest, ids =>
    match unique ids name true filt with
    | some (g, ids1) =>
      let res := mintAll rest ids1
      (g :: res.1, res.2)
    | none => mintAll rest ids

/-- **C4.** No two identifiers minted with the declaring flag by `unique`
within one compilation unit are equal, and a minted identifier is never equal
to an identifier present in the registry when it is minted: the first
conjunct states mint-time freshness for a single call against an arbitrary
current registry (which, midway through a unit, is the initial registry
extended by the earlier mints), the second states that the mints of a whole
request sequence are pairwise distinct and all absent from the unit's
starting registry. -/
theorem unique_mints_distinct :
    (∀ (ids : List String) (name : String) (filt : Option (List String))
        (g : String) (ids1 : List String),
        unique ids name true filt = some (g, ids1) → g ∉ ids) ∧
    ∀ (reqs : List (String × Option (List String))) (ids : List String),
      (mintAll reqs ids).1.Nodup ∧ ∀ g ∈ (mintAll reqs ids).1, g ∉ ids := by
  constructor
  · intro ids name filt g ids1 h
    rw [unique_declaring_eq] at h
    obtain ⟨hg, _⟩ := Prod.mk.injEq .. ▸ (Option.some.injEq .. ▸ h)
    exact hg ▸ mint_fresh ids name filt
  · intro reqs
    induction reqs with
    | nil => intro ids; simp [mintAll]
    | cons req rest ih =>
      intro ids
      obtain ⟨name, filt⟩ := req
      simp only [mintAll, unique_declaring_eq]
      obtain ⟨hnd, hmem⟩ :=
        ih (genName name (uniqueSearch ids filt name (uniqueBound ids filt) 0) :: ids)
      have hfresh := mint_fresh ids name filt
      constructor
      · refine List.nodup_cons.mpr ⟨fun hin => ?_, hnd⟩
        exact (hmem _ hin) (List.mem_cons_self _ _)
      · intro x hx
        rcases List.mem_cons.mp hx with rfl | hx'
        · exact hfresh
        · intro hxin
          exact (hmem x hx') (List.mem_cons_of_mem _ hxin)

/-- Closed instance for **C4**: a mint against registry `["y"]` avoids it,
and two mints of base `x` in one unit give distinct names. -/
theorem unique_mints_distinct_witness :
    (("x$0" : String) ∉ (["y"] : List String)) ∧
    (mintAll [("x", none), ("x", none)] []).1.Nodup := by
  constructor
  · exact unique_mints_distinct.1 ["y"] "x" none "x$0" ["x$0", "y"] (by decide)
  · exact (unique_mints_distinct.2 [("x", none), ("x", none)] []).1

/-! ## Scopes

`lib/scope` is not part of the given sources; its interface
(`closestHoistScope`, `lookup`, `getKind`, `getFromPos`,
`hasFunctionScopeBetween`, `add`) is modelled from the spec (§3 "Scope",
§4.1, glossary "Hoisting scope").  A scope value is the chain of scope
records from the scope itself up to the root (the JS `parent` pointers);
the mutable name→declaration maps are kept in a separate store keyed by
scope id, so that `Scope.add` mutations are visible through every alias of
a scope. -/

/-- The per-scope fields the core reads: an identity, the scope kind
(`"hoist"`, `"block"` or `"catch-block"`), whether the owning node is the
`Program` root, whether the owning node is a function, and the owning
node's body-start position (the source's `__getNodeBegin`). -/
structure ScopeInfo where
  id : Nat
  kind : String
  nodeIsProgram : Bool
  nodeIsFunction : Bool
  nodeBegin : Nat
deriving DecidableEq, Repr

/-- A scope together with its chain of parents (`scope.parent` links). -/
inductive ScopePath where
  | root (info : ScopeInfo)
  | child (info : ScopeInfo) (parent : ScopePath)
deriving DecidableEq, Repr

def ScopePath.info : ScopePath → ScopeInfo
  | .root i => i
  | .child i _ => i

def ScopePath.parent : ScopePath → Option ScopePath
  | .root _ => none
  | .child _ p => some p

/-- Modelled from the spec: `Scope.prototype.closestHoistScope` of the
missing `lib/scope` module — the nearest enclosing scope (possibly the
scope itself) of kind `"hoist"` (glossary: function body or program root).
`none` models the walk running past the root, on which the source would
fail. -/
def closestHoistScope : ScopePath → Option ScopePath
  | .root i => if i.kind = "hoist" then some (.root i) else none
  | .child i p => if i.kind = "hoist" then some (.child i p) else closestHoistScope p

/-- One entry of a scope's name→declaration map: owning scope id, name,
kind, and the position from which a let/const becomes visible (`none`
models the JS `null` stored for params, functions and caught names). -/
structure Decl where
  scopeId : Nat
  name : String
  kind : String
  fromPos : Option Nat
deriving DecidableEq, Repr

/-- `scope.hasOwn(name)` read against the declaration store. -/
def hasOwn (decls : List Decl) (sid : Nat) (name : String) : Bool :=
  decls.any fun d => decide (d.scopeId = sid) && decide (d.name = name)

def getDecl (decls : List Decl) (sid : Nat) (name : String) : Option Decl :=
  decls.find? fun d => decide (d.scopeId = sid) && decide (d.name = name)

/-- Modelled from the spec: `Scope.prototype.lookup` — §4.1 "walks enclosing
scopes outward to find the declaring scope". -/
def lookup (decls : List Decl) : ScopePath → String → Option ScopePath
  | .root i, name => if hasOwn decls i.id name then some (.root i) else none
  | .child i p, name =>
    if hasOwn decls i.id name then some (.child i p) else lookup decls p name

/-- Modelled from the spec: `Scope.prototype.getKind`. -/
def getKind (decls : List Decl) (sid : Nat) (name : String) : Option String :=
  (getDecl decls sid name).map Decl.kind

/-- Modelled from the spec: `Scope.prototype.getFromPos`. -/
def getFromPos (decls : List Decl) (sid : Nat) (name : String) : Option (Option Nat) :=
  (getDecl decls sid name).map Decl.fromPos

/-- Modelled from the spec: `Scope.prototype.hasFunctionScopeBetween` —
walking from this scope outward, is a scope owned by a function node
crossed strictly before reaching the scope with id `outerId`?  (§4.1: a
use before the declaration point is allowed only when "a function boundary
separates them".)  When `outerId` is not on the chain the walk answers
`false` past the root. -/
def hasFunctionScopeBetween : ScopePath → Nat → Bool
  | .root i, outerId => if i.id = outerId then false else i.nodeIsFunction
  | .child i p, outerId =>
    if i.id = outerId then false
    else if i.nodeIsFunction then true
    else hasFunctionScopeBetween p outerId

/-- The scope records from `p` (inclusive) up to, excluding, the scope with
id `outerId` — the scopes "between" a use and its declaring scope; `none`
when that scope is not an ancestor-or-self of `p`. -/
def chainUpTo : ScopePath → Nat → Option (List ScopeInfo)
  | .root i, outerId => if i.id = outerId then some [] else none
  | .child i p, outerId =>
    if i.id = outerId then some []
    else (chainUpTo p outerId).map (fun l => i :: l)

theorem hasFunctionScopeBetween_iff_chain (p : ScopePath) (outerId : Nat) :
    ∀ (chain : List ScopeInfo), chainUpTo p outerId = some chain →
    (hasFunctionScopeBetween p outerId = true ↔
      ∃ i ∈ chain, i.nodeIsFunction = true) := by
  induction p with
  | root i =>
    intro chain hchain
    by_cases hid : i.id = outerId
    · simp only [chainUpTo, hid, if_true, Option.some.injEq] at hchain
      subst hchain
      simp [hasFunctionScopeBetween, hid]
    · simp [chainUpTo, hid] at hchain
  | child i p ih =>
    intro chain hchain
    by_cases hid : i.id = outerId
    · simp only [chainUpTo, hid, if_true, Option.some.injEq] at hchain
      subst hchain
      simp [hasFunctionScopeBetween, hid]
    · simp only [chainUpTo, hid, if_false, Option.map_eq_some'] at hchain
      obtain ⟨tail, htail, rfl⟩ := hchain
      by_cases hfn : i.nodeIsFunction = true
      · simp [hasFunctionScopeBetween, hid, hfn]
      · have hstep : hasFunctionScopeBetween (ScopePath.child i p) outerId =
            hasFunctionScopeBetween p outerId := by
          simp [hasFunctionScopeBetween, hid, hfn]
        rw [hstep, ih tail htail]
        simp only [Bool.not_eq_true] at hfn
        constructor
        · rintro ⟨j, hj, hjf⟩
          exact ⟨j, List.mem_cons_of_mem _ hj, hjf⟩
        · rintro ⟨j, hj, hjf⟩
          rcases List.mem_cons.mp hj with rfl | hj'
          · rw [hfn] at hjf
            cases hjf
          · exact ⟨j, hj', hjf⟩

/-! ## Reference classification (`isReference`, `isLvalue`)

`isReference` inspects the node's parent link slot by slot; a node is
modelled with exactly the parent fields those checks read. -/

/-- The fields of `node.$parent` read by `isReference`/`isLvalue`: the
parent's type and, for each slot tested by the source, whether this node
occupies that slot. -/
structure ParentInfo where
  type : String
  idIsNode : Bool
  propertyIsNode : Bool
  computed : Bool
  keyIsNode : Bool
  labelIsNode : Bool
  paramIsNode : Bool
  paramsHasNode : Bool
  leftIsNode : Bool
  argumentIsNode : Bool
deriving DecidableEq, Repr

/-- `isFunction(node)` of the resolver source. -/
def isFunctionType (t : String) : Bool :=
  decide (t = "FunctionDeclaration") || decide (t = "FunctionExpression")
    || decide (t = "ArrowFunctionExpression")

/-- A use-site node with the fields the resolver passes read. -/
structure RefNode where
  type : String
  hasRefToScope : Bool
  parent : Option ParentInfo
  name : String
  rangeStart : Nat
  line : Nat
  scope : ScopePath
deriving Repr

/-- Evaluate a test on `node.$parent`; a missing parent makes every
`parentType === …` conjunct of the source false. -/
def parentTest (node : RefNode) (f : ParentInfo → Bool) : Bool :=
  match node.parent with
  | none => false
  | some p => f p

/-- `isReference(node)` (resolver source, lines 45-60). -/
def isReference (node : RefNode) : Bool :=
  node.hasRefToScope
    || (decide (node.type = "Identifier")
      && !(parentTest node fun p => decide (p.type = "VariableDeclarator") && p.idIsNode)
      && !(parentTest node fun p =>
            decide (p.type = "MemberExpression") && !p.computed && p.propertyIsNode)
      && !(parentTest node fun p => decide (p.type = "Property") && p.keyIsNode)
      && !(parentTest node fun p => decide (p.type = "LabeledStatement") && p.labelIsNode)
      && !(parentTest node fun p => decide (p.type = "CatchClause") && p.paramIsNode)
      && !(parentTest node fun p => isFunctionType p.type && p.idIsNode)
      && !(parentTest node fun p => isFunctionType p.type && p.paramsHasNode))

/-- `isLvalue(node)` (resolver source, lines 62-69). -/
def isLvalue (node : RefNode) : Bool :=
  isReference node
    && ((parentTest node fun p => decide (p.type = "AssignmentExpression") && p.leftIsNode)
      || (parentTest node fun p => decide (p.type = "UpdateExpression") && p.argumentIsNode))

/-- The fatal diagnostics of the core (`lib/error` aborts the unit). -/
inductive TranspileError where
  | unknownGlobal (line : Nat) (name : String)
  | useBeforeDeclaration (line : Nat) (name : String)
  | constReassignment (line : Nat) (name : String)
  | unsupportedLoopClosure (line : Nat) (name : String)
  | selfReferentialDefault (line : Nat) (name : String)
  | internalAssertion
deriving DecidableEq, Repr

structure ResolveOptions where
  disallowUnknownReferences : Bool
deriving DecidableEq, Repr

/-- `core.setupReferences` (resolver source, lines 356-379): classify the
node, record its name, resolve it through the scope chain, raise
`UnknownReferenceError` or `UseBeforeDeclarationError`, and annotate the
node with the declaring scope.  Result: updated registry and the
`$refToScope` annotation. -/
def setupReferences (decls : List Decl) (opts : ResolveOptions) (ids : List String)
    (node : RefNode) : Except TranspileError (List String × Option ScopePath) :=
  if isReference node then
    let ids1 := node.name :: ids
    let scope? := lookup decls node.scope node.name
    if scope?.isNone && opts.disallowUnknownReferences then
      .error (.unknownGlobal node.line node.name)
    else
      match scope? with
      | some scope =>
        let kind? := getKind decls scope.info.id node.name
        if kind? = some "const" ∨ kind? = some "let" then
          match getFromPos decls scope.info.id node.name with
          | some (some allowedFromPos) =>
            if node.rangeStart < allowedFromPos then
              if !(hasFunctionScopeBetween node.scope scope.info.id) then
                .error (.useBeforeDeclaration node.line node.name)
              else .ok (ids1, some scope)
            else .ok (ids1, some scope)
          | _ => .error .internalAssertion
        else .ok (ids1, some scope)
      | none => .ok (ids1, none)
  else .ok (ids, none)

/-- `core.detectConstAssignment` (resolver source, lines 449-456). -/
def detectConstAssignment (decls : List Decl) (node : RefNode) :
    Except TranspileError Unit :=
  if isLvalue node then
    match lookup decls node.scope node.name with
    | some scope =>
      if getKind decls scope.info.id node.name = some "const" then
        .error (.constReassignment node.line node.name)
      else .ok ()
    | none => .ok ()
  else .ok ()

theorem setupReferences_eval (decls : List Decl) (opts : ResolveOptions)
    (ids : List String) (node : RefNode) (declScope : ScopePath) (fp : Nat)
    (href : isReference node = true)
    (hlook : lookup decls node.scope node.name = some declScope)
    (hkind : getKind decls declScope.info.id node.name = some "const" ∨
      getKind decls declScope.info.id node.name = some "let")
    (hfrom : getFromPos decls declScope.info.id node.name = some (some fp))
    (hpos : node.rangeStart < fp) :
    setupReferences decls opts ids node =
      if hasFunctionScopeBetween node.scope declScope.info.id then
        .ok (node.name :: ids, some declScope)
      else .error (.useBeforeDeclaration node.line node.name) := by
  unfold setupReferences
  rw [href]
  simp only [if_true, hlook, Option.isNone_some, Bool.false_and, Bool.false_eq_true,
    if_false]
  rw [if_pos hkind, hfrom]
  by_cases hfsb : hasFunctionScopeBetween node.scope declScope.info.id = true
  · simp [hpos, hfsb]
  · simp only [Bool.not_eq_true] at hfsb
    simp [hpos, hfsb]

/-- **C1.** A use-site reference resolving to a `let`/`const` declaration
whose visible-from position lies after the reference's own position makes
`setupReferences` raise `UseBeforeDeclarationError` exactly when no function
scope lies between the scope of the use and the declaring scope (the
`chainUpTo` records are the scopes crossed strictly below the declaring
scope); with a function boundary in between the reference resolves
normally. -/
theorem setupReferences_useBeforeDeclaration_iff
    (decls : List Decl) (opts : ResolveOptions) (ids : List String) (node : RefNode)
    (declScope : ScopePath) (fp : Nat) (chain : List ScopeInfo)
    (href : isReference node = true)
    (hlook : lookup decls node.scope node.name = some declScope)
    (hkind : getKind decls declScope.info.id node.name = some "const" ∨
      getKind decls declScope.info.id node.name = some "let")
    (hfrom : getFromPos decls declScope.info.id node.name = some (some fp))
    (hpos : node.rangeStart < fp)
    (hchain : chainUpTo node.scope declScope.info.id = some chain) :
    (setupReferences decls opts ids node =
        .error (.useBeforeDeclaration node.line node.name)) ↔
      ∀ i ∈ chain, i.nodeIsFunction = false := by
  rw [setupReferences_eval decls opts ids node declScope fp href hlook hkind hfrom hpos]
  by_cases hfsb : hasFunctionScopeBetween node.scope declScope.info.id = true
  · rw [if_pos hfsb]
    obtain ⟨j, hj, hjf⟩ := (hasFunctionScopeBetween_iff_chain _ _ chain hchain).mp hfsb
    constructor
    · intro h
      cases h
    · intro hall
      rw [hall j hj] at hjf
      cases hjf
  · simp only [Bool.not_eq_true] at hfsb
    rw [if_neg (by simp [hfsb])]
    constructor
    · intro _ j hj
      by_contra hjf
      simp only [Bool.not_eq_false] at hjf
      have := (hasFunctionScopeBetween_iff_chain _ _ chain hchain).mpr ⟨j, hj, hjf⟩
      rw [hfsb] at this
      cases this
    · intro _
      rfl

/-- Parent record with every slot flag off, of the given type. -/
def plainParent (t : String) : ParentInfo :=
  { type := t, idIsNode := false, propertyIsNode := false, computed := false,
    keyIsNode := false, labelIsNode := false, paramIsNode := false,
    paramsHasNode := false, leftIsNode := false, argumentIsNode := false }

/-- Program-root scope of the concrete example programs. -/
def progInfo : ScopeInfo :=
  { id := 0, kind := "hoist", nodeIsProgram := true, nodeIsFunction := false,
    nodeBegin := 0 }

def progScope : ScopePath := .root progInfo

/-- Scope of a function declared at the program root. -/
def fnInfo : ScopeInfo :=
  { id := 1, kind := "hoist", nodeIsProgram := false, nodeIsFunction := true,
    nodeBegin := 20 }

def fnScope : ScopePath := .child fnInfo progScope

/-- `let x = x;` — `x` is declared at program scope, visible from position 9,
and the initializer references it at position 8. -/
def letxDecls : List Decl :=
  [{ scopeId := 0, name := "x", kind := "let", fromPos := some 9 }]

def letxRef : RefNode :=
  { type := "Identifier", hasRefToScope := false,
    parent := some (plainParent "VariableDeclarator"), name := "x",
    rangeStart := 8, line := 1, scope := progScope }

/-- `function f(){ return x; } let x = 1;` — the reference at position 22
sits inside the function body, the declaration becomes visible at 40. -/
def fnBodyDecls : List Decl :=
  [{ scopeId := 0, name := "x", kind := "let", fromPos := some 40 }]

def fnBodyRef : RefNode :=
  { type := "Identifier", hasRefToScope := false,
    parent := some (plainParent "ReturnStatement"), name := "x",
    rangeStart := 22, line := 1, scope := fnScope }

/-- Closed instances for **C1**: `let x = x;` fails with
`UseBeforeDeclarationError`, the use inside a function body that textually
precedes the declaration does not. -/
theorem setupReferences_useBeforeDeclaration_iff_witness :
    (setupReferences letxDecls ⟨false⟩ [] letxRef =
      .error (.useBeforeDeclaration 1 "x")) ∧
    (setupReferences fnBodyDecls ⟨false⟩ [] fnBodyRef ≠
      .error (.useBeforeDeclaration 1 "x")) := by
  constructor
  · exact (setupReferences_useBeforeDeclaration_iff letxDecls ⟨false⟩ [] letxRef
      progScope 9 [] (by decide) (by decide) (Or.inr (by decide)) (by decide)
      (by decide) (by decide)).mpr (by decide)
  · intro h
    have h2 := (setupReferences_useBeforeDeclaration_iff fnBodyDecls ⟨false⟩ [] fnBodyRef
      progScope 40 [fnInfo] (by decide) (by decide) (Or.inr (by decide)) (by decide)
      (by decide) (by decide)).mp h
    exact absurd (h2 fnInfo (by decide)) (by decide)

/-- **C7.** An lvalue write target — left side of an assignment or operand
of an update expression — that resolves to a const-kind declaration makes
`detectConstAssignment` raise `ConstReassignmentError`. -/
theorem detectConstAssignment_const_error (decls : List Decl) (node : RefNode)
    (declScope : ScopePath)
    (hlv : isLvalue node = true)
    (hlook : lookup decls node.scope node.name = some declScope)
    (hkind : getKind decls declScope.info.id node.name = some "const") :
    detectConstAssignment decls node =
      .error (.constReassignment node.line node.name) := by
  unfold detectConstAssignment
  rw [hlv]
  simp [hlook, hkind]

/-- `const c = 1; c = 2;` — the write target at position 13. -/
def constcDecls : List Decl :=
  [{ scopeId := 0, name := "c", kind := "const", fromPos := some 11 }]

def constcWrite : RefNode :=
  { type := "Identifier", hasRefToScope := false,
    parent := some { plainParent "AssignmentExpression" with leftIsNode := true },
    name := "c", rangeStart := 13, line := 1, scope := progScope }

/-- Closed instance for **C7**: `const c = 1; c = 2;` raises
`ConstReassignmentError`. -/
theorem detectConstAssignment_const_error_witness :
    detectConstAssignment constcDecls constcWrite =
      .error (.constReassignment 1 "c") :=
  detectConstAssignment_const_error constcDecls constcWrite progScope
    (by decide) (by decide) (by decide)

/-! ## Closure-in-loop capture checking (`detectLoopClosuresPre`) -/

/-- AST-node facts the loop-closure pass reads: an identity and the node
type.  A node value carries its chain of `$parent` links. -/
structure NodeInfo where
  id : Nat
  type : String
deriving DecidableEq, Repr

/-- An AST node together with its chain of `$parent` links. -/
inductive NodePath where
  | root (info : NodeInfo)
  | child (info : NodeInfo) (parent : NodePath)
deriving DecidableEq, Repr

def NodePath.info : NodePath → NodeInfo
  | .root i => i
  | .child i _ => i

/-- `isLoop(node)` of the resolver source. -/
def isLoopType (t : String) : Bool :=
  decide (t = "ForStatement") || decide (t = "ForInStatement")
    || decide (t = "WhileStatement") || decide (t = "DoWhileStatement")

/-- `isConstLet(kind)` of the resolver source. -/
def isConstLetKind (k : String) : Bool := decide (k = "const") || decide (k = "let")

/-- The `while (n)` walk of `detectLoopClosuresPre`: climb `$parent` links
from the declaring node; reaching the innermost tracked function first is
sound (`true`), reaching the outermost loop first is not (`false`); running
past the root leaves `ok` set. -/
def loopClosureWalk (innermostFn outermostLoop : NodePath) : NodePath → Bool
  | .root i =>
    if NodePath.root i = innermostFn then true
    else if NodePath.root i = outermostLoop then false
    else true
  | .child i p =>
    if NodePath.child i p = innermostFn then true
    else if NodePath.child i p = outermostLoop then false
    else loopClosureWalk innermostFn outermostLoop p

/-- The ancestor chain of a node: the node itself followed by its parents. -/
def ancestors : NodePath → List NodePath
  | .root i => [.root i]
  | .child i p => .child i p :: ancestors p

/-- The walk viewed on an explicit ancestor list. -/
def walkChain (fn loopNode : NodePath) : List NodePath → Bool
  | [] => true
  | n :: rest =>
    if n = fn then true
    else if n = loopNode then false
    else walkChain fn loopNode rest

theorem loopClosureWalk_eq_walkChain (fn loopNode : NodePath) (n : NodePath) :
    loopClosureWalk fn loopNode n = walkChain fn loopNode (ancestors n) := by
  induction n with
  | root i => simp [loopClosureWalk, ancestors, walkChain]
  | child i p ih => simp [loopClosureWalk, ancestors, walkChain, ih]

theorem walkChain_false_iff (fn loopNode : NodePath) : ∀ (chain : List NodePath),
    walkChain fn loopNode chain = false ↔
      ∃ i < chain.length, chain.get? i = some loopNode ∧
        ∀ j ≤ i, chain.get? j ≠ some fn := by
  intro chain
  induction chain with
  | nil => simp [walkChain]
  | cons n rest ih =>
    by_cases hfn : n = fn
    · subst hfn
      simp only [walkChain, if_true]
      constructor
      · intro h
        cases h
      · rintro ⟨i, _, _, hall⟩
        exact absurd (hall 0 (Nat.zero_le i)) (by simp)
    · by_cases hlp : n = loopNode
      · subst hlp
        simp only [walkChain, if_neg hfn, if_true]
        constructor
        · intro _
          refine ⟨0, by simp, by simp, fun j hj => ?_⟩
          interval_cases j
          simp [hfn]
        · intro _
          trivial
      · simp only [walkChain, if_neg hfn, if_neg hlp]
        rw [ih]
        constructor
        · rintro ⟨i, hilen, hi, hall⟩
          refine ⟨i + 1, by simpa using hilen, by simpa using hi, fun j hj => ?_⟩
          match j with
          | 0 => simp [hfn]
          | j + 1 =>
            simpa using hall j (by omega)
        · rintro ⟨i, hilen, hi, hall⟩
          match i with
          | 0 =>
            rw [List.get?_cons_zero] at hi
            exact absurd (Option.some.injEq .. ▸ hi) hlp
          | i + 1 =>
            refine ⟨i, by simpa using hilen, by simpa using hi, fun j hj => ?_⟩
            simpa using hall (j + 1) (by omega)

/-- The mutable traversal state of the loop-closure pass. -/
structure LoopCheckState where
  outermostLoop : Option NodePath
  functions : List NodePath
deriving DecidableEq, Repr

/-- The fields of `node.$refToScope` read here: the declaration kind of the
referenced name and the declaring scope's owning node. -/
structure RefInfo where
  kind : String
  declNode : NodePath
deriving DecidableEq, Repr

/-- A node as seen by `detectLoopClosuresPre`: its own parent chain, whether
`isReference(node)` holds, and its `$refToScope` annotation. -/
structure VisitNode where
  path : NodePath
  isRef : Bool
  name : String
  line : Nat
  ref : Option RefInfo
deriving DecidableEq, Repr

/-- `core.detectLoopClosuresPre` (resolver source, lines 381-438): track the
outermost active loop and the functions entered inside it; for a reference
to a const/let binding, walk `$parent` links from the declaring node and
fail when the outermost loop is met before the innermost function.  A
reference without `$refToScope` would make the source throw on
`.getKind`, modelled as `internalAssertion`. -/
def detectLoopClosuresPre (st : LoopCheckState) (node : VisitNode) :
    Except TranspileError LoopCheckState :=
  let st1 := if st.outermostLoop = none ∧ isLoopType node.path.info.type then
      { st with outermostLoop := some node.path } else st
  if st1.outermostLoop = none then .ok st1
  else
    let st2 := if isFunctionType node.path.info.type then
        { st1 with functions := st1.functions ++ [node.path] } else st1
    if st2.functions = [] then .ok st2
    else if node.isRef then
      match node.ref with
      | none => .error .internalAssertion
      | some ri =>
        if isConstLetKind ri.kind then
          match st2.functions.getLast? with
          | some innermostFn =>
            match st2.outermostLoop with
            | some outerLoop =>
              if loopClosureWalk innermostFn outerLoop ri.declNode then .ok st2
              else .error (.unsupportedLoopClosure node.line node.name)
            | none => .error .internalAssertion
          | none => .error .internalAssertion
        else .ok st2
    else .ok st2

/-- **C2.** For a reference to a let/const binding checked while an
outermost loop is active and at least one function has been entered inside
it, `detectLoopClosuresPre` raises `UnsupportedLoopClosureError` exactly
when, walking the ancestor chain upward from the binding's declaring node,
the outermost active loop occurs before any occurrence of the innermost
entered function; when the innermost function is met first (or neither is
met), no error is raised. -/
theorem detectLoopClosures_error_iff (st : LoopCheckState) (node : VisitNode)
    (loopNode innermostFn : NodePath) (ri : RefInfo)
    (hloop : st.outermostLoop = some loopNode)
    (hident : node.path.info.type = "Identifier")
    (hfns : st.functions.getLast? = some innermostFn)
    (href : node.isRef = true)
    (hri : node.ref = some ri)
    (hkind : isConstLetKind ri.kind = true) :
    (detectLoopClosuresPre st node =
        .error (.unsupportedLoopClosure node.line node.name)) ↔
      ∃ i < (ancestors ri.declNode).length,
        (ancestors ri.declNode).get? i = some loopNode ∧
        ∀ j ≤ i, (ancestors ri.declNode).get? j ≠ some innermostFn := by
  have hne : st.functions ≠ [] := by
    intro h
    rw [h] at hfns
    simp at hfns
  have hres : detectLoopClosuresPre st node =
      if loopClosureWalk innermostFn loopNode ri.declNode then .ok st
      else .error (.unsupportedLoopClosure node.line node.name) := by
    unfold detectLoopClosuresPre
    rw [hident]
    simp only [hloop, href, hri]
    simp [isLoopType, isFunctionType, hne, hkind, hfns, hloop]
  rw [hres]
  by_cases hwalk : loopClosureWalk innermostFn loopNode ri.declNode = true
  · rw [if_pos hwalk]
    constructor
    · intro h
      cases h
    · intro hex
      have hfalse : loopClosureWalk innermostFn loopNode ri.declNode = false := by
        rw [loopClosureWalk_eq_walkChain, walkChain_false_iff]
        exact hex
      rw [hwalk] at hfalse
      cases hfalse
  · simp only [Bool.not_eq_true] at hwalk
    rw [if_neg (by simp [hwalk])]
    constructor
    · intro _
      rw [loopClosureWalk_eq_walkChain] at hwalk
      exact (walkChain_false_iff _ _ _).mp hwalk
    · intro _
      rfl

/-- `for (let i=0;i<3;i++){ later(function(){ use(i); }); }` — node chain of
the loop, the loop body, the `later(...)` call, the closure passed to it,
its body, and the `i` use inside. -/
def forPath : NodePath := .root ⟨0, "ForStatement"⟩

def forBlockPath : NodePath := .child ⟨1, "BlockStatement"⟩ forPath

def callPath : NodePath := .child ⟨2, "CallExpression"⟩ forBlockPath

def innerFnPath : NodePath := .child ⟨3, "FunctionExpression"⟩ callPath

def innerFnBlockPath : NodePath := .child ⟨4, "BlockStatement"⟩ innerFnPath

def useIdentPath : NodePath := .child ⟨5, "Identifier"⟩ innerFnBlockPath

/-- Traversal state at the `i` use: the `for` is the outermost active loop
and the closure is the only entered function. -/
def loopSt : LoopCheckState := ⟨some forPath, [innerFnPath]⟩

/-- The `i` use referencing the loop's `let i` (declared at the `for`). -/
def loopCaptureUse : VisitNode :=
  { path := useIdentPath, isRef := true, name := "i", line := 1,
    ref := some ⟨"let", forPath⟩ }

/-- The same use shape referencing a `let` declared inside the closure's own
body — a function-local capture. -/
def localCaptureUse : VisitNode :=
  { path := useIdentPath, isRef := true, name := "i", line := 1,
    ref := some ⟨"let", innerFnBlockPath⟩ }

/-- Closed instances for **C2**: capturing the loop's `let i` across the
closure fails with `UnsupportedLoopClosureError`; a capture declared inside
the closure body does not. -/
theorem detectLoopClosures_error_iff_witness :
    (detectLoopClosuresPre loopSt loopCaptureUse =
      .error (.unsupportedLoopClosure 1 "i")) ∧
    (detectLoopClosuresPre loopSt localCaptureUse ≠
      .error (.unsupportedLoopClosure 1 "i")) := by
  constructor
  · exact (detectLoopClosures_error_iff loopSt loopCaptureUse forPath innerFnPath
      ⟨"let", forPath⟩ (by decide) (by decide) (by decide) (by decide) (by decide)
      (by decide)).mpr (by decide)
  · intro h
    have h2 := (detectLoopClosures_error_iff loopSt localCaptureUse forPath innerFnPath
      ⟨"let", innerFnBlockPath⟩ (by decide) (by decide) (by decide) (by decide)
      (by decide) (by decide)).mp h
    exact absurd h2 (by decide)

/-! ## Locating a common hoisting-scope ancestor (`findParentForScopes`)

The source's marking walk keeps per-call marks `$__path === uniquePathId` on
hoist scopes, here a set of scope ids; stale marks from earlier calls can
never match a fresh id, so each call starts with the empty mark set. -/

/-- `Array.prototype.splice(start, 1)` with the JS negative-start
semantics (`start = -1` removes the last element). -/
def spliceOne (l : List ScopePath) (start : Int) : List ScopePath :=
  let len : Int := l.length
  let actual : Int := if start < 0 then max (len + start) 0 else min start len
  l.eraseIdx actual.toNat

/-- One pass of the inner `for (i …)` loop of `findParentForScopes`.  The
fuel only bounds the pass (each step raises `i` or shortens the array);
`none` models the source crashing in `closestHoistScope`.  On the
`scope = null` branch the source decrements both `scopesLength` and `i` and
then splices at the decremented `i` — that is, at `i - 1`, or the last
element when `i` was `0` — and the loop increment restores `i`. -/
def findParentPass : Nat → Nat → List ScopePath → List Nat →
    Option (Option ScopePath × List ScopePath × List Nat)
  | 0, _, _, _ => none
  | fuel + 1, i, scopes, marks =>
    match scopes.get? i with
    | none => some (none, scopes, marks)
    | some sc =>
      match closestHoistScope sc with
      | none => none
      | some h =>
        let scNext : Option ScopePath := if h = sc then sc.parent else some sc
        if h.info.id ∈ marks then some (some h, scopes, marks)
        else
          match scNext with
          | some sc1 => findParentPass fuel (i + 1) (scopes.set i sc1) (h.info.id :: marks)
          | none => findParentPass fuel i (spliceOne scopes (Int.ofNat i - 1)) marks

/-- The `while (!parentScope && scopesLength && ++maxCounter < 1000)` loop:
at most 999 passes, matching the source's iteration cap. -/
def findParentLoop : Nat → List ScopePath → List Nat → Option (Option ScopePath)
  | 0, _, _ => some none
  | fuel + 1, scopes, marks =>
    if scopes.isEmpty then some none
    else
      match findParentPass (scopes.length + 1) 0 scopes marks with
      | none => none
      | some (some p, _, _) => some (some p)
      | some (none, scopes1, marks1) => findParentLoop fuel scopes1 marks1

/-- The first loop of `findParentForScopes`: replace each entry by its
closest hoist scope, returning that scope immediately when it is the
`Program` scope. -/
def toHoistScopes : List ScopePath → Option (Sum ScopePath (List ScopePath))
  | [] => some (.inr [])
  | sc :: rest =>
    match closestHoistScope sc with
    | none => none
    | some h =>
      if h.info.nodeIsProgram then some (.inl h)
      else match toHoistScopes rest with
        | none => none
        | some (.inl p) => some (.inl p)
        | some (.inr l) => some (.inr (h :: l))

/-- `core.findParentForScopes` (resolver source, lines 716-770).  `none`
models the source failing: the entry `assert(scopesLength)`, a
`closestHoistScope` walk past the root, or the final `assert(!!parentScope)`
after the cap expires or every walker is spliced away.  The singleton
shortcut of the source compares `scopesLength.length` — `undefined` — with
`1` and therefore never fires; it is dead code and has no counterpart
here. -/
def findParentForScopes (scopes0 : List ScopePath) : Option ScopePath :=
  if scopes0.isEmpty then none
  else
    match toHoistScopes scopes0 with
    | none => none
    | some (.inl p) => some p
    | some (.inr scopes1) =>
      match findParentLoop 999 scopes1 [] with
      | none => none
      | some (some p) => some p
      | some none => none

/-- `q` is `p` itself or an ancestor of `p` along parent links. -/
def isAncestorOrSelf (q : ScopePath) : ScopePath → Bool
  | .root i => decide (ScopePath.root i = q)
  | .child i p => decide (ScopePath.child i p = q) || isAncestorOrSelf q p

/-- Two sibling function wrappers under the program root, each holding an
inner function: `program ← w1 ← (body block b1) ← f` and
`program ← w2 ← (body block b2) ← g`. -/
def w1Scope : ScopePath := .child ⟨1, "hoist", false, true, 10⟩ progScope

def b1Scope : ScopePath := .child ⟨2, "block", false, false, 11⟩ w1Scope

def fScope : ScopePath := .child ⟨3, "hoist", false, true, 12⟩ b1Scope

def w2Scope : ScopePath := .child ⟨5, "hoist", false, true, 30⟩ progScope

def b2Scope : ScopePath := .child ⟨6, "block", false, false, 31⟩ w2Scope

def gScope : ScopePath := .child ⟨7, "hoist", false, true, 32⟩ b2Scope

/-- **C5** (failing input, the code contradicts the claim): on the two
function scopes `f` and `g` of sibling wrappers, `findParentForScopes`
returns `w1` — the hoist scope above `f`'s — which is not an ancestor of
`g`'s scope at all, while the lowest common hoisting-scope ancestor of both
arguments is the program root.  The walk never advances past a block scope
(`scopes[i]` is only reassigned when the current scope is its own closest
hoist scope), so after two passes the first walker self-detects its own
mark on `w1` regardless of the other argument; the singleton shortcut that
should handle one-element calls is dead code (`scopesLength.length`). -/
theorem findParentForScopes_wrong_scope :
    findParentForScopes [fScope, gScope] = some w1Scope ∧
    isAncestorOrSelf w1Scope gScope = false ∧
    isAncestorOrSelf progScope fScope = true ∧
    isAncestorOrSelf progScope gScope = true := by decide

/-! ## Unit state, lifecycle, and the shared-helper allocator -/

/-- One `BubbledVariable` record: generated name, fixed initializer text,
function flag, current attachment scope, and the identity of its currently
active `changesOptions` object (the handle deactivated on a rebase). -/
structure BubbledVariable where
  name : String
  value : String
  isFunction : Bool
  scope : ScopePath
  changesOptionsId : Nat
deriving DecidableEq, Repr

/-- One text insertion handed to the edit sink by the helper allocator.
`logicalName`/`value` record which `(logicalName, initializer)` pair the
insertion installs — the identity key the spec assigns to a helper. -/
structure Edit where
  pos : Nat
  text : String
  logicalName : String
  value : String
  changesOptionsId : Nat
deriving DecidableEq, Repr

/-- The process-wide mutable state of the resolver core: the `__isInit`
latch, the collaborator handles stored by `setup` (opaque), the name
registry, the loop-closure traversal state, the shared-helper table, and —
standing in for state the source keeps on scope objects and inside the edit
sink — the declaration store, the emitted edits, the set of deactivated
`changesOptions` objects, and a counter minting their identities. -/
structure CoreState where
  isInit : Bool
  alter : Option Nat
  src : Option Nat
  options : Option Nat
  allIdentifiers : List String
  outermostLoop : Option NodePath
  functions : List NodePath
  bubbledVariables : List (String × BubbledVariable)
  decls : List Decl
  edits : List Edit
  inactiveOptions : List Nat
  nextOptionsId : Nat
deriving DecidableEq, Repr

/-- The state of a fresh process, before any `setup`. -/
def initialCoreState : CoreState :=
  { isInit := false, alter := none, src := none, options := none,
    allIdentifiers := [], outermostLoop := none, functions := [],
    bubbledVariables := [], decls := [], edits := [], inactiveOptions := [],
    nextOptionsId := 0 }

/-- `core.reset` (resolver source, lines 85-91): reinitialize the name
registry, the loop-closure traversal state and the shared-helper table. -/
def reset (st : CoreState) : CoreState :=
  { st with
    allIdentifiers := []
    outermostLoop := none
    functions := []
    bubbledVariables := [] }

/-- `core.setup(alter, ast, options, src)` (resolver source, lines 93-102):
run `reset` only while the `__isInit` latch is unset, latch it, and store
the collaborators.  The syntax tree itself is traversed later and not
stored. -/
def setup (st : CoreState) (alter _ast options src : Nat) : CoreState :=
  let st1 := if !st.isInit then { (reset st) with isInit := true } else st
  { st1 with alter := some alter, src := some src, options := some options }

/-- A declaring `unique` mint recorded into the unit state, as the passes
perform it. -/
def mintIdent (st : CoreState) (name : String) : CoreState :=
  match unique st.allIdentifiers name true none with
  | some (_, ids1) => { st with allIdentifiers := ids1 }
  | none => st

/-- **C9** (failing input, the claim is false on the code): after a first
unit runs `setup` and mints `x$0`, the second unit's `setup` — the latch
`__isInit` is never cleared — does not reset, and the registry still holds
the first unit's entry. -/
theorem setup_carries_over_counterexample :
    ("x$0" ∈ (setup (mintIdent (setup initialCoreState 0 0 0 0) "x") 1 1 1 1).allIdentifiers) ∧
    (setup (mintIdent (setup initialCoreState 0 0 0 0) "x") 1 1 1 1).allIdentifiers ≠ [] := by
  decide

/-- **C9 (amended).** `reset` empties the name registry and the
shared-helper table, and `setup` does so exactly when the `__isInit` latch
is still unset — the first `setup` of the process, or any `setup` that
follows an explicit `reset`; later `setup` calls leave carried-over entries
in place. -/
theorem reset_clears_unit_state (st : CoreState) (alter ast options src : Nat) :
    (reset st).allIdentifiers = [] ∧ (reset st).bubbledVariables = [] ∧
    (st.isInit = false →
      (setup st alter ast options src).allIdentifiers = [] ∧
      (setup st alter ast options src).bubbledVariables = []) := by
  refine ⟨by simp [reset], by simp [reset], fun hinit => ?_⟩
  simp [setup, reset, hinit]

/-- Closed instance for **C9 (amended)**: the first `setup` of a process
starts with empty registry and helper table. -/
theorem reset_clears_unit_state_witness :
    (setup initialCoreState 0 0 0 0).allIdentifiers = [] ∧
    (setup initialCoreState 0 0 0 0).bubbledVariables = [] :=
  (reset_clears_unit_state initialCoreState 0 0 0 0).2.2 rfl

/-- `core.createScopeVariableDeclaration(scope, kind, variableName)`
(resolver source, lines 772-776): `scope.add(variableName, kind, {})` — a
declaration with no `from` position. -/
def createScopeVariableDeclaration (st : CoreState) (scope : ScopePath)
    (kind variableName : String) : CoreState :=
  { st with decls :=
      { scopeId := scope.info.id, name := variableName, kind := kind,
        fromPos := none } :: st.decls }

/-- `core.__isBubbledVariableDeclaration(variableName, variableInitValue)`
(resolver source, lines 796-803): the table entry under `variableName`
when its initializer matches, else `false` (here `none`). -/
def __isBubbledVariableDeclaration (st : CoreState)
    (variableName variableInitValue : String) : Option BubbledVariable :=
  match st.bubbledVariables.find? (fun kv => kv.1 == variableName) with
  | some (_, bv) => if bv.value = variableInitValue then some bv else none
  | none => none

/-- `core.__createBubbledVariableDeclaration` (resolver source, lines
805-839).  With `bubbledVariable?` given (the rebase path) the existing
record keeps its generated name and initializer, is re-attached to `scope`,
and gets a fresh `changesOptions` object; otherwise a new record is minted
through `unique` and stored under `variableName` (an assoc overwrite —
reads take the newest entry).  Both paths declare a `var` in the target
scope and insert the declaration text at the scope node's body start with
the record's current `changesOptions`. -/
def __createBubbledVariableDeclaration (st : CoreState) (scope : ScopePath)
    (variableName variableInitValue : String) (isFunc : Bool)
    (bubbledVariable? : Option (String × BubbledVariable)) : String × CoreState :=
  match bubbledVariable? with
  | some (key, bv) =>
    let coId := st.nextOptionsId
    let bv1 : BubbledVariable :=
      { bv with
        scope := scope
        changesOptionsId := coId }
    let st1 := { st with
      bubbledVariables :=
        st.bubbledVariables.map (fun kv => if kv.1 = key then (key, bv1) else kv)
      nextOptionsId := coId + 1 }
    let st2 := createScopeVariableDeclaration st1 scope "var" bv.name
    let text := if bv.isFunction then "function " ++ bv.name ++ bv.value
      else "var " ++ bv.name ++ " = " ++ bv.value ++ ";"
    let st3 := { st2 with edits :=
      { pos := scope.info.nodeBegin, text := text, logicalName := key,
        value := bv.value, changesOptionsId := coId } :: st2.edits }
    (bv.name, st3)
  | none =>
    match unique st.allIdentifiers variableName true none with
    | none => (variableName, st)
    | some (g, ids1) =>
      let coId := st.nextOptionsId
      let bv : BubbledVariable :=
        { name := g, value := variableInitValue, isFunction := isFunc,
          scope := scope, changesOptionsId := coId }
      let st1 := { st with
        allIdentifiers := ids1
        bubbledVariables := (variableName, bv) :: st.bubbledVariables
        nextOptionsId := coId + 1 }
      let st2 := createScopeVariableDeclaration st1 scope "var" g
      let text := if isFunc then "function " ++ g ++ variableInitValue
        else "var " ++ g ++ " = " ++ variableInitValue ++ ";"
      let st3 := { st2 with edits :=
        { pos := scope.info.nodeBegin, text := text, logicalName := variableName,
          value := variableInitValue, changesOptionsId := coId } :: st2.edits }
      (g, st3)

/-- `core.__rebaseBubbledVariableDeclaration(scope, variableName)` (resolver
source, lines 841-848): mark the record's current `changesOptions` inactive
— deactivating its installation edit — then reinstall the record at the new
scope through `__createBubbledVariableDeclaration`.  The source reads the
table entry unconditionally; callers have just checked it exists, and the
impossible missing-entry case falls through unchanged. -/
def __rebaseBubbledVariableDeclaration (st : CoreState) (scope : ScopePath)
    (variableName : String) : String × CoreState :=
  match st.bubbledVariables.find? (fun kv => kv.1 == variableName) with
  | some (key, bv) =>
    let st1 := { st with inactiveOptions := bv.changesOptionsId :: st.inactiveOptions }
    __createBubbledVariableDeclaration st1 scope "" "" false (some (key, bv))
  | none => (variableName, st)

/-- `core.bubbledVariableDeclaration(scope, variableName, variableInitValue,
isFunction)` (resolver source, lines 778-794).  `none` models a crash
(`closestHoistScope` past the root, or `findParentForScopes` failing). -/
def bubbledVariableDeclaration (st : CoreState) (scope0 : ScopePath)
    (variableName variableInitValue : String) (isFunc : Bool) :
    Option (String × CoreState) :=
  match closestHoistScope scope0 with
  | none => none
  | some scope =>
    match __isBubbledVariableDeclaration st variableName variableInitValue with
    | some bv =>
      if (lookup st.decls scope bv.name).isSome then some (bv.name, st)
      else
        match findParentForScopes [scope, bv.scope] with
        | none => none
        | some scope1 => some (__rebaseBubbledVariableDeclaration st scope1 variableName)
    | none =>
      some (__createBubbledVariableDeclaration st scope variableName
        variableInitValue isFunc none)

/-- One helper request: requesting scope and the `(logicalName, initializer,
isFunction)` triple. -/
structure BubbledRequest where
  scope : ScopePath
  name : String
  value : String
  isFunc : Bool
deriving DecidableEq, Repr

/-- A sequence of helper requests processed left to right, collecting the
returned identifiers. -/
def processBubbledRequests : List BubbledRequest → CoreState →
    Option (List String × CoreState)
  | [], st => some ([], st)
  | r :: rest, st =>
    match bubbledVariableDeclaration st r.scope r.name r.value r.isFunc with
    | none => none
    | some (g, st1) =>
      match processBubbledRequests rest st1 with
      | none => none
      | some (gs, stF) => some (g :: gs, stF)

/-- The number of installation edits for the `(logicalName, initializer)`
pair whose `changesOptions` has not been deactivated. -/
def activeEditCount (st : CoreState) (logicalName value : String) : Nat :=
  (st.edits.filter (fun e => decide (e.logicalName = logicalName)
    && decide (e.value = value)
    && !(decide (e.changesOptionsId ∈ st.inactiveOptions)))).length

/-- The three requests of the clobbering scenario: the same logical name
`H` is requested with initializer `v1`, then `v2`, then `v1` again, all
from the program scope. -/
def clobberRequests : List BubbledRequest :=
  [⟨progScope, "H", "v1", false⟩, ⟨progScope, "H", "v2", false⟩,
   ⟨progScope, "H", "v1", false⟩]

/-- **C3** (counterexample): within one unit, the requests
`(H,v1), (H,v2), (H,v1)` — the first and third sharing the same logical
name and the same initializer — return `H$0` and `H$2` respectively, and
afterwards two installation edits for the pair `(H, v1)` are active at
once: the helper table is keyed by logical name alone, so the `(H,v2)`
request overwrites the `(H,v1)` record, and the third request can neither
find nor deactivate the first installation. -/
theorem bubbledVariable_same_pair_counterexample :
    ((processBubbledRequests clobberRequests initialCoreState).map
      (fun r => r.1)) = some ["H$0", "H$1", "H$2"] ∧
    ((processBubbledRequests clobberRequests initialCoreState).map
      (fun r => activeEditCount r.2 "H" "v1")) = some 2 := by
  decide

/-- The current table entry under logical name `k`. -/
def findBV (st : CoreState) (k : String) : Option BubbledVariable :=
  (st.bubbledVariables.find? (fun kv => kv.1 == k)).map Prod.snd

/-- The allocator invariant tying the helper table to its installation
edits: table keys are unique, every `changesOptions` identity is below the
mint counter, no two edits share one, and every still-active edit is the
one owned by the current table entry of its `(logicalName, initializer)`
pair. -/
structure HelperInv (val : String → Option String) (st : CoreState) : Prop where
  keysNodup : (st.bubbledVariables.map Prod.fst).Nodup
  tableVal : ∀ p ∈ st.bubbledVariables, val p.1 = some p.2.value
  tableLt : ∀ p ∈ st.bubbledVariables, (Prod.snd p).changesOptionsId < st.nextOptionsId
  editLt : ∀ e ∈ st.edits, e.changesOptionsId < st.nextOptionsId
  inactLt : ∀ x ∈ st.inactiveOptions, x < st.nextOptionsId
  editIdsNodup : (st.edits.map Edit.changesOptionsId).Nodup
  activeOwned : ∀ e ∈ st.edits, e.changesOptionsId ∉ st.inactiveOptions →
    ∃ bv, (e.logicalName, bv) ∈ st.bubbledVariables ∧ bv.value = e.value ∧
      bv.changesOptionsId = e.changesOptionsId

theorem assoc_nodup_unique {β : Type} (l : List (String × β))
    (hnd : (l.map Prod.fst).Nodup) (k : String) (b1 b2 : β)
    (h1 : (k, b1) ∈ l) (h2 : (k, b2) ∈ l) : b1 = b2 := by
  induction l with
  | nil => cases h1
  | cons p t ih =>
    simp only [List.map_cons, List.nodup_cons] at hnd
    obtain ⟨hpf, hnt⟩ := hnd
    rcases List.mem_cons.mp h1 with h1h | h1t <;>
      rcases List.mem_cons.mp h2 with h2h | h2t
    · rw [← h1h] at h2h
      exact ((Prod.mk.injEq .. ▸ h2h).2).symm
    · exfalso
      apply hpf
      rw [← h1h]
      exact List.mem_map.mpr ⟨(k, b2), h2t, rfl⟩
    · exfalso
      apply hpf
      rw [← h2h]
      exact List.mem_map.mpr ⟨(k, b1), h1t, rfl⟩
    · exact ih hnt h1t h2t

theorem nodup_map_all_eq {α β : Type} (l : List α) (f : α → β)
    (hnd : (l.map f).Nodup) (hall : ∀ a ∈ l, ∀ b ∈ l, f a = f b) :
    l.length ≤ 1 := by
  match l with
  | [] => simp
  | [a] => simp
  | a :: b :: t =>
    exfalso
    have hab : f a = f b := hall a (by simp) b (by simp)
    simp only [List.map_cons, List.nodup_cons] at hnd
    exact hnd.1 (by simp [hab])

theorem find?_map_assoc (l : List (String × BubbledVariable)) (key : String)
    (f : String × BubbledVariable → String × BubbledVariable)
    (hf : ∀ kv, (f kv).1 = kv.1) :
    (l.map f).find? (fun kv => kv.1 == key) =
      (l.find? (fun kv => kv.1 == key)).map f := by
  induction l with
  | nil => rfl
  | cons kv t ih =>
    by_cases hk : kv.1 = key
    · simp [List.find?, hf, hk]
    · simp only [List.map_cons, List.find?]
      rw [hf kv]
      have : (kv.1 == key) = false := by simp [hk]
      rw [this]
      exact ih

/-- `HelperInv` bounds the number of simultaneously active installation
edits of any `(logicalName, initializer)` pair by one. -/
theorem helperInv_activeEditCount_le_one (val : String → Option String)
    (st : CoreState) (hinv : HelperInv val st) (k v : String) :
    activeEditCount st k v ≤ 1 := by
  unfold activeEditCount
  apply nodup_map_all_eq _ Edit.changesOptionsId
  · exact hinv.editIdsNodup.sublist ((List.filter_sublist _).map _)
  · intro a ha b hb
    have ha' := List.mem_of_mem_filter ha
    have hb' := List.mem_of_mem_filter hb
    have hpa := List.of_mem_filter ha
    have hpb := List.of_mem_filter hb
    simp only [Bool.and_eq_true, Bool.not_eq_true', decide_eq_true_eq,
      decide_eq_false_iff_not] at hpa hpb
    obtain ⟨⟨hak, hav⟩, hact⟩ := hpa
    obtain ⟨⟨hbk, hbv⟩, hbct⟩ := hpb
    obtain ⟨bva, hmema, hvala, hcoida⟩ := hinv.activeOwned a ha' hact
    obtain ⟨bvb, hmemb, hvalb, hcoidb⟩ := hinv.activeOwned b hb' hbct
    rw [hak] at hmema
    rw [hbk] at hmemb
    have : bva = bvb := assoc_nodup_unique _ hinv.keysNodup k bva bvb hmema hmemb
    rw [← hcoida, ← hcoidb, this]

/-- The name minted by a fresh helper installation. -/
def mintName (st : CoreState) (vname : String) : String :=
  genName vname (uniqueSearch st.allIdentifiers none vname
    (uniqueBound st.allIdentifiers none) 0)

/-- The declaration text a helper record installs. -/
def installText (bv : BubbledVariable) : String :=
  if bv.isFunction then "function " ++ bv.name ++ bv.value
  else "var " ++ bv.name ++ " = " ++ bv.value ++ ";"

theorem create_new_eq (st : CoreState) (scope : ScopePath)
    (vname vvalue : String) (isFunc : Bool) :
    __createBubbledVariableDeclaration st scope vname vvalue isFunc none =
      (mintName st vname,
       { st with
         allIdentifiers := mintName st vname :: st.allIdentifiers
         bubbledVariables :=
           (vname, ⟨mintName st vname, vvalue, isFunc, scope, st.nextOptionsId⟩) ::
             st.bubbledVariables
         decls := ⟨scope.info.id, mintName st vname, "var", none⟩ :: st.decls
         edits := ⟨scope.info.nodeBegin,
             installText ⟨mintName st vname, vvalue, isFunc, scope, st.nextOptionsId⟩,
             vname, vvalue, st.nextOptionsId⟩ :: st.edits
         nextOptionsId := st.nextOptionsId + 1 }) := by
  unfold __createBubbledVariableDeclaration mintName installText
  rw [unique_declaring_eq]
  rfl

theorem rebase_eq (st : CoreState) (scope1 : ScopePath) (key : String)
    (bv : BubbledVariable)
    (hfind : st.bubbledVariables.find? (fun kv => kv.1 == key) = some (key, bv)) :
    __rebaseBubbledVariableDeclaration st scope1 key =
      (bv.name,
       { st with
         bubbledVariables := st.bubbledVariables.map (fun kv =>
           if kv.1 = key then
             (key, { bv with scope := scope1, changesOptionsId := st.nextOptionsId })
           else kv)
         decls := ⟨scope1.info.id, bv.name, "var", none⟩ :: st.decls
         edits := ⟨scope1.info.nodeBegin,
             installText { bv with scope := scope1, changesOptionsId := st.nextOptionsId },
             key, bv.value, st.nextOptionsId⟩ :: st.edits
         inactiveOptions := bv.changesOptionsId :: st.inactiveOptions
         nextOptionsId := st.nextOptionsId + 1 }) := by
  unfold __rebaseBubbledVariableDeclaration
  rw [hfind]
  unfold __createBubbledVariableDeclaration installText
  rfl

theorem isBubbled_some_find (st : CoreState) (vname vvalue : String)
    (bv : BubbledVariable)
    (h : __isBubbledVariableDeclaration st vname vvalue = some bv) :
    st.bubbledVariables.find? (fun kv => kv.1 == vname) = some (vname, bv) ∧
      bv.value = vvalue := by
  unfold __isBubbledVariableDeclaration at h
  cases hf : st.bubbledVariables.find? (fun kv => kv.1 == vname) with
  | none =>
    rw [hf] at h
    cases h
  | some kv =>
    obtain ⟨k0, bv0⟩ := kv
    rw [hf] at h
    have hk : k0 = vname := by
      have := List.find?_some hf
      simpa using this
    by_cases hv : bv0.value = vvalue
    · simp only [if_pos hv] at h
      have hbv : bv0 = bv := Option.some.injEq .. ▸ h
      refine ⟨?_, by rw [← hbv]; exact hv⟩
      subst hk
      subst hbv
      rfl
    · simp only [if_neg hv] at h
      cases h

theorem isBubbled_none_absent (val : String → Option String) (st : CoreState)
    (vname vvalue : String)
    (hval : val vname = some vvalue)
    (htv : ∀ p ∈ st.bubbledVariables, val p.1 = some p.2.value)
    (hnone : __isBubbledVariableDeclaration st vname vvalue = none) :
    st.bubbledVariables.find? (fun kv => kv.1 == vname) = none := by
  cases hf : st.bubbledVariables.find? (fun kv => kv.1 == vname) with
  | none => rfl
  | some kv =>
    exfalso
    obtain ⟨k0, bv0⟩ := kv
    have hk : k0 = vname := by
      have := List.find?_some hf
      simpa using this
    have hmem := List.mem_of_find?_eq_some hf
    have hv := htv (k0, bv0) hmem
    simp only at hv
    rw [hk, hval] at hv
    have hveq : bv0.value = vvalue := (Option.some.injEq .. ▸ hv).symm
    unfold __isBubbledVariableDeclaration at hnone
    rw [hf] at hnone
    simp only [if_pos hveq] at hnone
    exact Option.noConfusion hnone

theorem create_new_step (val : String → Option String) (st : CoreState)
    (scope : ScopePath) (vname vvalue : String) (isFunc : Bool)
    (hval : val vname = some vvalue)
    (hinv : HelperInv val st)
    (habsent : st.bubbledVariables.find? (fun kv => kv.1 == vname) = none) :
    HelperInv val (__createBubbledVariableDeclaration st scope vname vvalue isFunc none).2 ∧
    (∃ bv1, findBV (__createBubbledVariableDeclaration st scope vname vvalue isFunc none).2
        vname = some bv1 ∧
      bv1.name = (__createBubbledVariableDeclaration st scope vname vvalue isFunc none).1) ∧
    (∀ k bvk, findBV st k = some bvk →
      ∃ bv', findBV (__createBubbledVariableDeclaration st scope vname vvalue isFunc none).2
          k = some bv' ∧ bv'.name = bvk.name) := by
  rw [create_new_eq]
  have hnotin : vname ∉ st.bubbledVariables.map Prod.fst := by
    intro hmem
    obtain ⟨kv, hkv, hfst⟩ := List.mem_map.mp hmem
    have := List.find?_eq_none.mp habsent kv hkv
    simp [hfst] at this
  refine ⟨?_, ?_, ?_⟩
  · constructor
    · simp only [List.map_cons]
      exact List.nodup_cons.mpr ⟨hnotin, hinv.keysNodup⟩
    · intro p hp
      rcases List.mem_cons.mp hp with rfl | hp'
      · simpa using hval
      · exact hinv.tableVal p hp'
    · intro p hp
      rcases List.mem_cons.mp hp with rfl | hp'
      · show st.nextOptionsId < st.nextOptionsId + 1
        omega
      · have h1 := hinv.tableLt p hp'
        show (Prod.snd p).changesOptionsId < st.nextOptionsId + 1
        omega
    · intro e he
      rcases List.mem_cons.mp he with rfl | he'
      · show st.nextOptionsId < st.nextOptionsId + 1
        omega
      · have h1 := hinv.editLt e he'
        show e.changesOptionsId < st.nextOptionsId + 1
        omega
    · intro x hx
      have h1 := hinv.inactLt x hx
      show x < st.nextOptionsId + 1
      omega
    · simp only [List.map_cons]
      refine List.nodup_cons.mpr ⟨?_, hinv.editIdsNodup⟩
      intro hmem
      obtain ⟨e, he, hce⟩ := List.mem_map.mp hmem
      have h1 := hinv.editLt e he
      have hce' : e.changesOptionsId = st.nextOptionsId := hce
      omega
    · intro e he hact
      rcases List.mem_cons.mp he with rfl | he'
      · exact ⟨⟨mintName st vname, vvalue, isFunc, scope, st.nextOptionsId⟩,
          List.mem_cons_self _ _, rfl, rfl⟩
      · have hact' : e.changesOptionsId ∉ st.inactiveOptions := hact
        obtain ⟨bv0, hmem0, hval0, hcoid0⟩ := hinv.activeOwned e he' hact'
        exact ⟨bv0, List.mem_cons_of_mem _ hmem0, hval0, hcoid0⟩
  · refine ⟨⟨mintName st vname, vvalue, isFunc, scope, st.nextOptionsId⟩, ?_, rfl⟩
    unfold findBV
    rw [List.find?_cons_of_pos _ (by simp)]
    rfl
  · intro k bvk hf2
    by_cases hkv : k = vname
    · subst hkv
      unfold findBV at hf2
      rw [habsent] at hf2
      cases hf2
    · refine ⟨bvk, ?_, rfl⟩
      unfold findBV at hf2 ⊢
      rw [List.find?_cons_of_neg _ (by simp [Ne.symm hkv])]
      exact hf2

theorem rebase_step (val : String → Option String) (st : CoreState)
    (scope1 : ScopePath) (key : String) (bv : BubbledVariable)
    (hinv : HelperInv val st)
    (hfind : st.bubbledVariables.find? (fun kv => kv.1 == key) = some (key, bv)) :
    HelperInv val (__rebaseBubbledVariableDeclaration st scope1 key).2 ∧
    (∃ bv1, findBV (__rebaseBubbledVariableDeclaration st scope1 key).2 key = some bv1 ∧
      bv1.name = (__rebaseBubbledVariableDeclaration st scope1 key).1) ∧
    (∀ k bvk, findBV st k = some bvk →
      ∃ bv', findBV (__rebaseBubbledVariableDeclaration st scope1 key).2 k = some bv' ∧
        bv'.name = bvk.name) := by
  rw [rebase_eq st scope1 key bv hfind]
  have hmem_kb : (key, bv) ∈ st.bubbledVariables := List.mem_of_find?_eq_some hfind
  have hbvlt : bv.changesOptionsId < st.nextOptionsId := hinv.tableLt (key, bv) hmem_kb
  have hffst : ∀ kv : String × BubbledVariable,
      ((fun kv => if kv.1 = key then
        (key, { bv with scope := scope1, changesOptionsId := st.nextOptionsId })
        else kv) kv).1 = kv.1 := by
    intro kv
    by_cases h : kv.1 = key <;> simp [h]
  have hmapfst : (st.bubbledVariables.map (fun kv => if kv.1 = key then
        (key, { bv with scope := scope1, changesOptionsId := st.nextOptionsId })
        else kv)).map Prod.fst = st.bubbledVariables.map Prod.fst := by
    rw [List.map_map]
    apply List.map_congr_left
    intro kv _
    exact hffst kv
  refine ⟨?_, ?_, ?_⟩
  · constructor
    · show ((st.bubbledVariables.map _).map Prod.fst).Nodup
      rw [hmapfst]
      exact hinv.keysNodup
    · intro p hp
      obtain ⟨q, hq, rfl⟩ := List.mem_map.mp hp
      by_cases h : q.1 = key
      · simp only [h, if_true]
        have := hinv.tableVal (key, bv) hmem_kb
        simpa using this
      · simp only [h, if_false]
        exact hinv.tableVal q hq
    · intro p hp
      obtain ⟨q, hq, rfl⟩ := List.mem_map.mp hp
      by_cases h : q.1 = key
      · simp only [h, if_true]
        show st.nextOptionsId < st.nextOptionsId + 1
        omega
      · simp only [h, if_false]
        have h1 := hinv.tableLt q hq
        show (Prod.snd q).changesOptionsId < st.nextOptionsId + 1
        omega
    · intro e he
      rcases List.mem_cons.mp he with rfl | he'
      · show st.nextOptionsId < st.nextOptionsId + 1
        omega
      · have h1 := hinv.editLt e he'
        show e.changesOptionsId < st.nextOptionsId + 1
        omega
    · intro x hx
      rcases List.mem_cons.mp hx with rfl | hx'
      · show bv.changesOptionsId < st.nextOptionsId + 1
        omega
      · have h1 := hinv.inactLt x hx'
        show x < st.nextOptionsId + 1
        omega
    · simp only [List.map_cons]
      refine List.nodup_cons.mpr ⟨?_, hinv.editIdsNodup⟩
      intro hmem
      obtain ⟨e, he, hce⟩ := List.mem_map.mp hmem
      have h1 := hinv.editLt e he
      have hce' : e.changesOptionsId = st.nextOptionsId := hce
      omega
    · intro e he hact
      rcases List.mem_cons.mp he with rfl | he'
      · refine ⟨{ bv with scope := scope1, changesOptionsId := st.nextOptionsId },
          ?_, rfl, rfl⟩
        exact List.mem_map.mpr ⟨(key, bv), hmem_kb, by simp⟩
      · have hact' : e.changesOptionsId ∉ bv.changesOptionsId :: st.inactiveOptions := hact
        simp only [List.mem_cons] at hact'
        push_neg at hact'
        obtain ⟨hne, hnotold⟩ := hact'
        obtain ⟨bv0, hmem0, hval0, hcoid0⟩ := hinv.activeOwned e he' hnotold
        by_cases hlog : e.logicalName = key
        · exfalso
          rw [hlog] at hmem0
          have : bv0 = bv := assoc_nodup_unique _ hinv.keysNodup key bv0 bv hmem0 hmem_kb
          rw [this] at hcoid0
          exact hne hcoid0.symm
        · refine ⟨bv0, ?_, hval0, hcoid0⟩
          exact List.mem_map.mpr ⟨(e.logicalName, bv0), hmem0, by simp [hlog]⟩
  · refine ⟨{ bv with scope := scope1, changesOptionsId := st.nextOptionsId }, ?_, rfl⟩
    simp only [findBV]
    rw [find?_map_assoc _ key _ hffst, hfind]
    simp
  · intro k bvk hf2
    unfold findBV at hf2
    obtain ⟨kv0, hkv0, hsnd⟩ := Option.map_eq_some'.mp hf2
    have hk0 : kv0.1 = k := by
      have := List.find?_some hkv0
      simpa using this
    simp only [findBV]
    rw [find?_map_assoc _ k _ hffst, hkv0]
    by_cases hkey : k = key
    · subst hkey
      have hkv0mem := List.mem_of_find?_eq_some hkv0
      have hbveq : kv0.2 = bv := by
        apply assoc_nodup_unique _ hinv.keysNodup k kv0.2 bv
        · rw [← hk0]
          exact hkv0mem
        · exact hmem_kb
      refine ⟨{ bv with scope := scope1, changesOptionsId := st.nextOptionsId }, ?_, ?_⟩
      · simp [hk0]
      · show bv.name = bvk.name
        rw [← hsnd, hbveq]
    · refine ⟨bvk, ?_, rfl⟩
      simp [Option.map_some', hk0, hkey, hsnd]

theorem bubbled_step (val : String → Option String) (st : CoreState)
    (r : BubbledRequest) (g : String) (st1 : CoreState)
    (hval : val r.name = some r.value)
    (hinv : HelperInv val st)
    (hstep : bubbledVariableDeclaration st r.scope r.name r.value r.isFunc =
      some (g, st1)) :
    HelperInv val st1 ∧
    (∃ bv1, findBV st1 r.name = some bv1 ∧ bv1.name = g) ∧
    (∀ k bvk, findBV st k = some bvk →
      ∃ bv', findBV st1 k = some bv' ∧ bv'.name = bvk.name) := by
  unfold bubbledVariableDeclaration at hstep
  cases hchs : closestHoistScope r.scope with
  | none =>
    rw [hchs] at hstep
    cases hstep
  | some scope =>
    simp only [hchs] at hstep
    cases hbub : __isBubbledVariableDeclaration st r.name r.value with
    | some bv =>
      simp only [hbub] at hstep
      obtain ⟨hfind, hvmatch⟩ := isBubbled_some_find st r.name r.value bv hbub
      by_cases hvis : (lookup st.decls scope bv.name).isSome
      · rw [if_pos hvis] at hstep
        obtain ⟨hg, hst⟩ := Prod.mk.injEq .. ▸ (Option.some.injEq .. ▸ hstep)
        subst hst
        refine ⟨hinv, ⟨bv, ?_, by rw [hg]⟩, fun k bvk hf => ⟨bvk, hf, rfl⟩⟩
        unfold findBV
        rw [hfind]
        rfl
      · rw [if_neg hvis] at hstep
        cases hfp : findParentForScopes [scope, bv.scope] with
        | none =>
          rw [hfp] at hstep
          cases hstep
        | some scope1 =>
          simp only [hfp] at hstep
          have hres := Option.some.injEq .. ▸ hstep
          obtain ⟨hrb1, hrb2, hrb3⟩ := rebase_step val st scope1 r.name bv hinv hfind
          rw [hres] at hrb1 hrb2 hrb3
          exact ⟨hrb1, hrb2, hrb3⟩
    | none =>
      simp only [hbub] at hstep
      have habsent := isBubbled_none_absent val st r.name r.value hval
        hinv.tableVal hbub
      have hres := Option.some.injEq .. ▸ hstep
      obtain ⟨hcn1, hcn2, hcn3⟩ := create_new_step val st scope r.name r.value
        r.isFunc hval hinv habsent
      rw [hres] at hcn1 hcn2 hcn3
      exact ⟨hcn1, hcn2, hcn3⟩

theorem processBubbled_trace (val : String → Option String)
    (reqs : List BubbledRequest) : ∀ (st : CoreState),
    (∀ r ∈ reqs, val r.name = some r.value) →
    HelperInv val st →
    ∀ outs stF, processBubbledRequests reqs st = some (outs, stF) →
    HelperInv val stF ∧
    (∀ k bvk, findBV st k = some bvk →
      ∃ bv', findBV stF k = some bv' ∧ bv'.name = bvk.name) ∧
    (∀ p ∈ List.zip reqs outs,
      ∃ bv', findBV stF (Prod.fst p).name = some bv' ∧ bv'.name = p.2) := by
  induction reqs with
  | nil =>
    intro st hvals hinv outs stF hrun
    unfold processBubbledRequests at hrun
    obtain ⟨ho, hs⟩ := Prod.mk.injEq .. ▸ (Option.some.injEq .. ▸ hrun)
    subst hs
    refine ⟨hinv, fun k bvk hf => ⟨bvk, hf, rfl⟩, ?_⟩
    rw [← ho]
    simp
  | cons r rest ih =>
    intro st hvals hinv outs stF hrun
    unfold processBubbledRequests at hrun
    cases hstep : bubbledVariableDeclaration st r.scope r.name r.value r.isFunc with
    | none =>
      rw [hstep] at hrun
      cases hrun
    | some gst =>
      obtain ⟨g, st1⟩ := gst
      simp only [hstep] at hrun
      cases hrest : processBubbledRequests rest st1 with
      | none =>
        rw [hrest] at hrun
        cases hrun
      | some pF =>
        obtain ⟨gs, stF'⟩ := pF
        simp only [hrest] at hrun
        obtain ⟨ho, hs⟩ := Prod.mk.injEq .. ▸ (Option.some.injEq .. ▸ hrun)
        subst hs
        obtain ⟨hinv1, ⟨bv1, hfbv1, hname1⟩, hstable1⟩ :=
          bubbled_step val st r g st1 (hvals r (List.mem_cons_self _ _)) hinv hstep
        obtain ⟨hinvF, hstableF, hzipF⟩ :=
          ih st1 (fun r' hr' => hvals r' (List.mem_cons_of_mem _ hr')) hinv1 gs stF' hrest
        refine ⟨hinvF, ?_, ?_⟩
        · intro k bvk hf
          obtain ⟨bv', h1, h2⟩ := hstable1 k bvk hf
          obtain ⟨bv'', h3, h4⟩ := hstableF k bv' h1
          exact ⟨bv'', h3, by rw [h4, h2]⟩
        · intro p hp
          rw [← ho] at hp
          simp only [List.zip_cons_cons] at hp
          rcases List.mem_cons.mp hp with rfl | hp'
          · obtain ⟨bv'', h3, h4⟩ := hstableF r.name bv1 hfbv1
            exact ⟨bv'', h3, by rw [h4, hname1]⟩
          · exact hzipF p hp'

/-- The unit-wide initializer associated to each logical name by a request
sequence: the value of the first request bearing that name. -/
def requestVal (reqs : List BubbledRequest) (k : String) : Option String :=
  (reqs.find? (fun r => r.name == k)).map BubbledRequest.value

theorem requestVal_of_mem (reqs : List BubbledRequest)
    (hcompat : ∀ r1 ∈ reqs, ∀ r2 ∈ reqs, r1.name = r2.name → r1.value = r2.value)
    (r : BubbledRequest) (hr : r ∈ reqs) : requestVal reqs r.name = some r.value := by
  unfold requestVal
  cases hf : reqs.find? (fun r' => r'.name == r.name) with
  | none =>
    exfalso
    have := List.find?_eq_none.mp hf r hr
    simp at this
  | some r0 =>
    have hmem0 := List.mem_of_find?_eq_some hf
    have hn0 : r0.name = r.name := by
      have := List.find?_some hf
      simpa using this
    rw [Option.map_some']
    rw [hcompat r0 hmem0 r hr hn0]

/-- **C3 (amended).** Within one compilation unit, provided no two
`bubbledVariableDeclaration` requests use the same logical name with
different initializers — the proviso the clobbering counterexample forces,
the table being keyed by logical name alone — all requests sharing a
`(logicalName, initializer)` pair return the same generated identifier, and
at most one installation edit per pair is active in the resulting state.
The theorem applies to every prefix of the unit's request sequence, so the
edit bound holds at every intermediate moment; a rebase deactivates the
previous installation's `changesOptions` before inserting the new one
(`__rebaseBubbledVariableDeclaration`), which is what keeps the bound. -/
theorem bubbledVariable_helper_coherence (reqs : List BubbledRequest)
    (hcompat : ∀ r1 ∈ reqs, ∀ r2 ∈ reqs, r1.name = r2.name → r1.value = r2.value)
    (outs : List String) (stF : CoreState)
    (hrun : processBubbledRequests reqs initialCoreState = some (outs, stF)) :
    (∀ p1 ∈ List.zip reqs outs, ∀ p2 ∈ List.zip reqs outs,
      (Prod.fst p1).name = (Prod.fst p2).name → p1.2 = p2.2) ∧
    (∀ k v, activeEditCount stF k v ≤ 1) := by
  have hinv0 : HelperInv (requestVal reqs) initialCoreState := by
    constructor <;> simp [initialCoreState]
  obtain ⟨hinvF, _, hzip⟩ := processBubbled_trace (requestVal reqs) reqs
    initialCoreState (fun r hr => requestVal_of_mem reqs hcompat r hr) hinv0
    outs stF hrun
  constructor
  · intro p1 hp1 p2 hp2 hname
    obtain ⟨bv1, hf1, hn1⟩ := hzip p1 hp1
    obtain ⟨bv2, hf2, hn2⟩ := hzip p2 hp2
    rw [hname, hf2] at hf1
    have : bv2 = bv1 := Option.some.injEq .. ▸ hf1
    rw [← hn1, ← hn2, this]
  · intro k v
    exact helperInv_activeEditCount_le_one _ stF hinvF k v

/-- Two compatible requests for the helper `(T, v)` from the sibling inner
functions `f` and `g`: the second is out of the first installation's sight
and triggers a rebase. -/
def coherenceReqs : List BubbledRequest :=
  [⟨fScope, "T", "v", false⟩, ⟨gScope, "T", "v", false⟩]

/-- Closed instance for **C3 (amended)**: both requests return the same
identifier and at most one `(T, v)` installation edit stays active. -/
theorem bubbledVariable_helper_coherence_witness :
    ∃ outs stF, processBubbledRequests coherenceReqs initialCoreState =
        some (outs, stF) ∧
      (∀ p1 ∈ List.zip coherenceReqs outs, ∀ p2 ∈ List.zip coherenceReqs outs,
        (Prod.fst p1).name = (Prod.fst p2).name → p1.2 = p2.2) ∧
      activeEditCount stF "T" "v" ≤ 1 := by
  have hsome : ∃ outs stF, processBubbledRequests coherenceReqs initialCoreState =
      some (outs, stF) := by
    cases hp : processBubbledRequests coherenceReqs initialCoreState with
    | none => exact absurd hp (by decide)
    | some p => exact ⟨p.1, p.2, rfl⟩
  obtain ⟨outs, stF, hrun⟩ := hsome
  have h := bubbledVariable_helper_coherence coherenceReqs (by decide) outs stF hrun
  exact ⟨outs, stF, hrun, h.1, h.2 "T" "v"⟩

/-! ## Class prototype wiring (`createPrototypeString`, classes source) -/

/-- Per-accessor record of a class: raw key text when the key was a
literal, and the synthesized getter/setter backing-function names. -/
structure AccessorRec where
  raw : Option String
  get : Option String
  set : Option String
deriving DecidableEq, Repr

/-- The `$defineProperty` constant of the classes source. -/
def objectDefineProperty : String := "Object.defineProperty"

/-- One `name: {…descriptor…}` entry of the accessors object literal
(classes source, lines 68-72). -/
def accessorEntryString (key : String) (accessor : AccessorRec) : String :=
  (accessor.raw.getD key) ++ ": \x7b"
    ++ (match accessor.get with
      | some g => "\"get\": " ++ g ++ ", "
      | none => "")
    ++ (match accessor.set with
      | some s => "\"set\": " ++ s ++ ", "
      | none => "")
    ++ "\"configurable\": true, \"enumerable\": true\x7d"

/-- `accessorsKeys.map(…).join(", ")`. -/
def accessorsJoin (accessors : List (String × AccessorRec)) : String :=
  String.intercalate ", " (accessors.map fun ka => accessorEntryString ka.1 ka.2)

/-- The `freezePrototypeString` of `createPrototypeString` (classes source,
line 75): the property-definition call sealing the `prototype` slot. -/
def freezePrototypeString (dp className : String) : String :=
  dp ++ "(" ++ className
    ++ ", \"prototype\", \x7b\"configurable\": false, \"enumerable\": false, \"writable\": false\x7d);"

/-- The branch structure of `createPrototypeString` (classes source, lines
77-96): delegation object with `constructor` binding under a superclass,
batched accessor definition otherwise, bare freeze when neither applies. -/
def prototypeWiringText (dp className : String) (superName : Option String)
    (accessorsString : String) : String :=
  match superName with
  | some sup =>
    className ++ ".prototype = Object.create(" ++ sup ++ ".prototype"
      ++ ", \x7b"
      ++ "\"constructor\": \x7b\"value\": " ++ className
      ++ ", \"configurable\": true, \"writable\": true\x7d"
      ++ (if accessorsString ≠ "" then ", " ++ accessorsString else "")
      ++ " \x7d"
      ++ ");"
      ++ freezePrototypeString dp className
  | none =>
    if accessorsString ≠ "" then
      "Object.defineProperties(" ++ className ++ ".prototype, \x7b"
        ++ accessorsString ++ "\x7d);" ++ freezePrototypeString dp className
    else
      freezePrototypeString dp className

/-- `classesTranspiler.createPrototypeString(node, className, superName,
accessors)` (classes source, lines 65-97): allocate (idempotently) the
property-definition helper through the shared-helper allocator, then build
the wiring text. -/
def createPrototypeString (st : CoreState) (scope : ScopePath)
    (className : String) (superName : Option String)
    (accessors : List (String × AccessorRec)) : Option (String × CoreState) :=
  let accessorsString := accessorsJoin accessors
  match bubbledVariableDeclaration st scope "DP" objectDefineProperty false with
  | none => none
  | some (dp, st1) =>
    some (prototypeWiringText dp className superName accessorsString, st1)

theorem prototypeWiringText_freeze (dp className : String)
    (superName : Option String) (accessorsString : String) :
    ∃ pre, prototypeWiringText dp className superName accessorsString =
      pre ++ freezePrototypeString dp className := by
  cases superName with
  | some sup =>
    refine ⟨(className ++ ".prototype = Object.create(" ++ sup ++ ".prototype"
      ++ ", \x7b"
      ++ "\"constructor\": \x7b\"value\": " ++ className
      ++ ", \"configurable\": true, \"writable\": true\x7d"
      ++ (if accessorsString ≠ "" then ", " ++ accessorsString else "")
      ++ " \x7d"
      ++ ");"), ?_⟩
    rfl
  | none =>
    by_cases hacc : accessorsString ≠ ""
    · refine ⟨("Object.defineProperties(" ++ className ++ ".prototype, \x7b"
        ++ accessorsString ++ "\x7d);"), ?_⟩
      simp only [prototypeWiringText]
      rw [if_pos hacc]
    · refine ⟨"", ?_⟩
      simp only [prototypeWiringText]
      rw [if_neg hacc]
      apply string_ext
      simp [string_data_append]

/-- **C6.** Whatever the superclass and accessor inputs, the synthesized
prototype-wiring text ends with the property-definition call on the class's
`prototype` slot carrying `"configurable": false, "enumerable": false,
"writable": false` — the prototype slot of every lowered class ends
non-configurable and non-writable. -/
theorem createPrototypeString_freezes (st : CoreState) (scope : ScopePath)
    (className : String) (superName : Option String)
    (accessors : List (String × AccessorRec)) (out : String) (st1 : CoreState)
    (h : createPrototypeString st scope className superName accessors =
      some (out, st1)) :
    ∃ dp pre, out = pre ++ freezePrototypeString dp className := by
  unfold createPrototypeString at h
  cases hb : bubbledVariableDeclaration st scope "DP" objectDefineProperty false with
  | none =>
    rw [hb] at h
    cases h
  | some dpst =>
    obtain ⟨dp, stx⟩ := dpst
    rw [hb] at h
    have h2 : (prototypeWiringText dp className superName (accessorsJoin accessors),
        stx) = (out, st1) := Option.some.inj h
    have ho : prototypeWiringText dp className superName (accessorsJoin accessors) =
        out := congrArg Prod.fst h2
    obtain ⟨pre, hpre⟩ := prototypeWiringText_freeze dp className superName
      (accessorsJoin accessors)
    exact ⟨dp, pre, by rw [← ho, hpre]⟩

/-- Closed instance for **C6**: class `A`, no superclass, no accessors. -/
theorem createPrototypeString_freezes_witness :
    ∃ out stx dp pre,
      createPrototypeString initialCoreState progScope "A" none [] =
        some (out, stx) ∧
      out = pre ++ freezePrototypeString dp "A" := by
  cases hp : createPrototypeString initialCoreState progScope "A" none [] with
  | none => exact absurd hp (by decide)
  | some p =>
    obtain ⟨dp, pre, hpre⟩ := createPrototypeString_freezes initialCoreState
      progScope "A" none [] p.1 p.2 (hp.trans rfl)
    exact ⟨p.1, p.2, dp, pre, rfl, hpre⟩

/-! ## Parameter lowering: default values (functions source) -/

/-- A function parameter as the defaults loop reads it: its `.name` when it
is a plain identifier (`none` models the `undefined` name of a pattern),
whether it is an object/array pattern, and its source range. -/
structure ParamNode where
  name : Option String
  isPattern : Bool
  rangeStart : Nat
  rangeEnd : Nat
deriving DecidableEq, Repr

/-- A default expression: its type tag, `.name` when it is an identifier,
and its source range end. -/
structure DfltNode where
  type : String
  name : Option String
  rangeEnd : Nat
deriving DecidableEq, Repr

/-- One text change pushed onto the `changes` sink. -/
structure Change where
  start : Nat
  stop : Nat
  str : String
deriving DecidableEq, Repr

/-- `core.defaultString(node, value)` (resolver source, lines 583-587);
`node` is an identifier with this name. -/
def defaultString (name value : String) : String :=
  "if(" ++ name ++ " === void 0)" ++ name ++ " = " ++ value

/-- `core.definitionWithDefaultString(node, donor, value)` (resolver
source, lines 571-575). -/
def definitionWithDefaultString (name donor value : String) : String :=
  name ++ " = " ++ donor ++ ";" ++ defaultString name value

/-- The body of the defaults loop of
`functionDestructuringAndDefaultsAndRest` (functions source, lines
91-137), iterated by index.  The destructuring-expansion collaborator and
`core.stringFromSrc` are not under the given sources and enter as the
function parameters `unwrapD` and `strSrc`.  An out-of-range
`params[paramIndex]` would make the source read `.name` of `undefined`,
modelled as `internalAssertion`. -/
def processDefaultsGo (unwrapD : ParamNode → String → String)
    (strSrc : DfltNode → String) (fnLine fnBodyStart : Nat)
    (params : List ParamNode) (defaults : List DfltNode)
    (initialParamsCount defaultsCount : Nat) :
    Nat → Nat → Except TranspileError (List Change)
  | 0, _ => .ok []
  | remaining + 1, i =>
    match defaults.get? i with
    | none => .ok []
    | some dflt =>
      let paramIndex := initialParamsCount - defaultsCount + i
      let prevDflt := if i = 0 then none else defaults.get? (i - 1)
      let prevParam := if paramIndex = 0 then none else params.get? (paramIndex - 1)
      match params.get? paramIndex with
      | none => .error .internalAssertion
      | some param =>
        if dflt.type = "Identifier" ∧ dflt.name = param.name then
          .error (.selfReferentialDefault fnLine (param.name.getD ""))
        else
          let defaultStr :=
            if param.isPattern then
              unwrapD param ("(arguments[" ++ Nat.repr paramIndex
                ++ "] !== void 0 ? arguments[" ++ Nat.repr paramIndex ++ "] : "
                ++ strSrc dflt ++ ")") ++ ";"
            else
              "var " ++ definitionWithDefaultString (param.name.getD "")
                ("arguments[" ++ Nat.repr paramIndex ++ "]") (strSrc dflt) ++ ";"
          let addChange : Change := ⟨fnBodyStart, fnBodyStart, defaultStr⟩
          let cleanupStart :=
            (match prevDflt, prevParam with
              | some pd, _ => pd.rangeEnd + 1
              | none, some pp => pp.rangeEnd + 1
              | none, none => param.rangeStart)
            - (if prevParam.isSome then 1 else 0)
          let cleanupChange : Change := ⟨cleanupStart, dflt.rangeEnd, ""⟩
          match processDefaultsGo unwrapD strSrc fnLine fnBodyStart params defaults
            initialParamsCount defaultsCount remaining (i + 1) with
          | .error e => .error e
          | .ok rest => .ok (addChange :: cleanupChange :: rest)

/-- The defaults section of the parameter-lowering `pre` for one function:
`defaults` pair up with the last `defaults.length` parameters. -/
def processDefaults (unwrapD : ParamNode → String → String)
    (strSrc : DfltNode → String) (fnLine fnBodyStart : Nat)
    (params : List ParamNode) (defaults : List DfltNode) :
    Except TranspileError (List Change) :=
  processDefaultsGo unwrapD strSrc fnLine fnBodyStart params defaults
    params.length defaults.length defaults.length 0

theorem processDefaultsGo_selfref (unwrapD : ParamNode → String → String)
    (strSrc : DfltNode → String) (fnLine fnBodyStart : Nat)
    (params : List ParamNode) (defaults : List DfltNode)
    (initialParamsCount defaultsCount : Nat) :
    ∀ (remaining i i0 : Nat) (d0 : DfltNode) (p0 : ParamNode),
    i ≤ i0 → i0 < i + remaining →
    defaults.get? i0 = some d0 →
    params.get? (initialParamsCount - defaultsCount + i0) = some p0 →
    d0.type = "Identifier" → d0.name = p0.name →
    ∃ nm, processDefaultsGo unwrapD strSrc fnLine fnBodyStart params defaults
        initialParamsCount defaultsCount remaining i =
      .error (.selfReferentialDefault fnLine nm) := by
  intro remaining
  induction remaining with
  | zero =>
    intro i i0 d0 p0 hle hlt _ _ _ _
    omega
  | succ remaining ih =>
    intro i i0 d0 p0 hle hlt hd0 hp0 htype hname
    have hi0len : i0 < defaults.length := by
      rcases List.get?_eq_some.mp hd0 with ⟨h, _⟩
      exact h
    have hpi0len : initialParamsCount - defaultsCount + i0 < params.length := by
      rcases List.get?_eq_some.mp hp0 with ⟨h, _⟩
      exact h
    cases hgi : defaults.get? i with
    | none =>
      exfalso
      have := List.get?_eq_none.mp hgi
      omega
    | some di =>
      cases hpi : params.get? (initialParamsCount - defaultsCount + i) with
      | none =>
        exfalso
        have := List.get?_eq_none.mp hpi
        omega
      | some pi =>
        by_cases hcond : di.type = "Identifier" ∧ di.name = pi.name
        · refine ⟨pi.name.getD "", ?_⟩
          simp only [processDefaultsGo, hgi, hpi]
          rw [if_pos hcond]
        · have hnei : i ≠ i0 := by
            intro heq
            subst heq
            rw [hgi] at hd0
            rw [hpi] at hp0
            have hd : di = d0 := Option.some.injEq .. ▸ hd0
            have hp : pi = p0 := Option.some.injEq .. ▸ hp0
            exact hcond ⟨by rw [hd, htype], by rw [hd, hp, hname]⟩
          obtain ⟨nm, herr⟩ := ih (i + 1) i0 d0 p0 (by omega) (by omega) hd0 hp0
            htype hname
          refine ⟨nm, ?_⟩
          simp only [processDefaultsGo, hgi, hpi]
          rw [if_neg hcond, herr]

/-- **C8.** When some defaulted parameter's default expression is a bare
identifier carrying the parameter's own name, default lowering fails with
`SelfReferentialDefaultError` (raised at the first such parameter).  In
the source AST `defaults[i]` belongs to
`params[params.length - defaults.length + i]`. -/
theorem processDefaults_selfref_error (unwrapD : ParamNode → String → String)
    (strSrc : DfltNode → String) (fnLine fnBodyStart : Nat)
    (params : List ParamNode) (defaults : List DfltNode)
    (i : Nat) (dflt : DfltNode) (param : ParamNode)
    (hd : defaults.get? i = some dflt)
    (hp : params.get? (params.length - defaults.length + i) = some param)
    (htype : dflt.type = "Identifier")
    (hname : dflt.name = param.name) :
    ∃ nm, processDefaults unwrapD strSrc fnLine fnBodyStart params defaults =
      .error (.selfReferentialDefault fnLine nm) := by
  have hilen : i < defaults.length := by
    rcases List.get?_eq_some.mp hd with ⟨h, _⟩
    exact h
  exact processDefaultsGo_selfref unwrapD strSrc fnLine fnBodyStart params defaults
    params.length defaults.length defaults.length 0 i dflt param (Nat.zero_le i)
    (by omega) hd hp htype hname

/-- `function f(a = a){}`. -/
def selfRefParams : List ParamNode := [⟨some "a", false, 11, 12⟩]

def selfRefDefaults : List DfltNode := [⟨"Identifier", some "a", 16⟩]

/-- Closed instance for **C8**: `function f(a = a){}` fails with
`SelfReferentialDefaultError`. -/
theorem processDefaults_selfref_error_witness :
    ∃ nm, processDefaults (fun _ s => s) (fun _ => "a") 1 19
        selfRefParams selfRefDefaults =
      .error (.selfReferentialDefault 1 nm) :=
  processDefaults_selfref_error (fun _ s => s) (fun _ => "a") 1 19
    selfRefParams selfRefDefaults 0 ⟨"Identifier", some "a", 16⟩
    ⟨some "a", false, 11, 12⟩ (by decide) (by decide) (by decide) (by decide)
